import Mathlib

/-!
Verification of the semantic-analysis core of the anchor-sentinel scanner:
a shallow embedding, in Lean 4, of

* the Taint Tracker        (src/analysis/taint.rs),
* the Scope Tracker        (src/analysis/cfg.rs), and
* the Program Index        (src/analysis/context.rs),

together with theorems settling the behavioural claims made about them.

The engines walk `syn` 2.x abstract syntax trees.  The embedding models the
AST fragment those walkers dispatch on: every constructor below corresponds
to the `syn` node shape the Rust code matches, and every traversal function
mirrors one `Visit` method (overridden methods follow the override, the
rest follow `syn::visit`'s default recursion).  Rust `HashMap`s are modelled
as association lists with replace-on-insert semantics (the code only ever
inserts and looks up, so iteration order is irrelevant).  Token streams that
the Rust code renders with `quote!` and then scans for substrings are
modelled by an explicit renderer that prints identifiers verbatim and
separates tokens with spaces, which is all the substring checks depend on.
All strings are assumed ASCII (the analysed sources are Rust programs).
-/

namespace Sentinel

/-- Single-quote character, used when building diagnostic strings. -/
def squote : Char := Char.ofNat 39

/-! ## Association-list maps (model of `std::collections::HashMap`) -/

/-- `HashMap::insert`: replace the binding of `k` if present, else append. -/
def upsert {α : Type} (m : List (String × α)) (k : String) (v : α) :
    List (String × α) :=
  match m with
  | [] => [(k, v)]
  | (k0, v0) :: r => if k0 = k then (k0, v) :: r else (k0, v0) :: upsert r k v

/-- `HashMap::get` as an option-valued lookup. -/
def lookup {α : Type} (m : List (String × α)) (k : String) : Option α :=
  match m with
  | [] => none
  | (k0, v0) :: r => if k0 = k then some v0 else lookup r k

theorem lookup_upsert_self {α : Type} (m : List (String × α)) (k : String)
    (v : α) : lookup (upsert m k v) k = some v := by
  induction m with
  | nil => simp [upsert, lookup]
  | cons hd tl ih =>
    obtain ⟨k0, v0⟩ := hd
    by_cases h : k0 = k <;> simp [upsert, lookup, h, ih]

theorem lookup_upsert_ne {α : Type} (m : List (String × α)) (k k' : String)
    (v : α) (h : k ≠ k') : lookup (upsert m k v) k' = lookup m k' := by
  induction m with
  | nil => simp [upsert, lookup, h]
  | cons hd tl ih =>
    obtain ⟨k0, v0⟩ := hd
    by_cases h0 : k0 = k
    · subst h0; simp [upsert, lookup, h]
    · simp [upsert, lookup, h0, ih]

/-! ## String utilities used by the Rust code -/

/-- Boolean infix test on character lists. -/
def isInfixB (needle : List Char) : List Char → Bool
  | [] => needle.isEmpty
  | c :: t => needle.isPrefixOf (c :: t) || isInfixB needle t

/-- `str::contains(needle)`: substring test. -/
def containsSub (s needle : String) : Bool :=
  isInfixB needle.toList s.toList

/-- `str::to_lowercase` (ASCII fragment). -/
def toLowerStr (s : String) : String :=
  String.mk (s.toList.map Char.toLower)

/-- `str::starts_with`. -/
def startsWithStr (s pfx : String) : Bool :=
  pfx.toList.isPrefixOf s.toList

/-- `str::trim`: strip whitespace from both ends. -/
def trimStr (s : String) : String :=
  String.mk
    (((s.toList.dropWhile Char.isWhitespace).reverse.dropWhile
      Char.isWhitespace).reverse)

/-- The word characters of the Rust splitters: `is_alphanumeric() || '_'`. -/
def isWordChar (c : Char) : Bool := c.isAlphanum || c = '_'

/-- Splitting at every character satisfying `p`, keeping empty pieces
(the semantics of Rust `str::split` with a predicate). -/
def splitPredChars (p : Char → Bool) : List Char → List Char → List String
  | [], acc => [String.mk acc.reverse]
  | c :: r, acc =>
      if p c then String.mk acc.reverse :: splitPredChars p r []
      else splitPredChars p r (c :: acc)

/-- Split a string at every non-word character (Rust
`split(|c| !c.is_alphanumeric() && c != '_')`), keeping empty pieces. -/
def splitWords (s : String) : List String :=
  splitPredChars (fun c => !(isWordChar c)) s.toList []

/-- Does the (non-empty) word start with an alphabetic character?
(`w.chars().next().unwrap().is_alphabetic()`). -/
def startsAlpha (w : String) : Bool :=
  match w.toList with
  | [] => false
  | c :: _ => c.isAlpha

/-- Strip one trailing carriage return (Rust `str::lines` line ends). -/
def stripCr (l : List Char) : List Char :=
  match l.reverse with
  | c :: r => if c = Char.ofNat 13 then r.reverse else l
  | [] => l

/-- Split at newline characters. -/
def splitNl : List Char → List Char → List String
  | [], acc => [String.mk (stripCr acc.reverse)]
  | c :: r, acc =>
      if c = Char.ofNat 10 then
        String.mk (stripCr acc.reverse) :: splitNl r []
      else splitNl r (c :: acc)

/-- `str::lines` of Rust: split on newline, no trailing empty line. -/
def rustLines (s : String) : List String :=
  if s = "" then []
  else
    let l := splitNl s.toList []
    if l.getLast? = some "" then l.dropLast else l

/-! ## The embedded `syn` 2.x AST fragment

Constructors carry exactly the data the two walkers and the renderer
inspect.  `otherE` stands for any expression shape every relevant `match`
sends to its catch-all arm and whose children none of the walkers visit;
it carries its token text for rendering. -/

/-- `syn::UnOp`. -/
inductive UnOp where
  | neg
  | notOp
  | deref
deriving DecidableEq, Repr

mutual
/-- `syn::Expr` (the fragment dispatched on by the engines). -/
inductive SynExpr where
  /-- `Expr::Path`: the path's segment identifiers. -/
  | pathE (segs : List String)
  /-- `Expr::Lit` holding `Lit::Int` with (non-negative) digit value `v`. -/
  | litInt (v : Nat)
  /-- `Expr::Lit` holding any non-integer literal, with its token text. -/
  | litOther (text : String)
  /-- `Expr::Binary`, with the operator's token text. -/
  | binary (op : String) (l r : SynExpr)
  /-- `Expr::Call`. -/
  | call (fn : SynExpr) (args : SynExprList)
  /-- `Expr::MethodCall`. -/
  | methodCall (recv : SynExpr) (method : String) (args : SynExprList)
  /-- `Expr::Paren`. -/
  | paren (e : SynExpr)
  /-- `Expr::Unary`. -/
  | unary (op : UnOp) (e : SynExpr)
  /-- `Expr::Cast`, with the target type's token text. -/
  | cast (e : SynExpr) (tyTokens : String)
  /-- `Expr::Field`, with the member's token text. -/
  | fieldE (base : SynExpr) (member : String)
  /-- `Expr::Macro`: path segments and the raw argument token text. -/
  | macroE (pathSegs : List String) (tokens : String)
  /-- `Expr::If` with no `else`. -/
  | ifThen (cond : SynExpr) (thenB : SynBlock)
  /-- `Expr::If` with an `else` branch (a block or a chained `if`). -/
  | ifThenElse (cond : SynExpr) (thenB : SynBlock) (els : SynExpr)
  /-- `Expr::Block`. -/
  | blockE (b : SynBlock)
  /-- `Expr::Loop`. -/
  | loopE (body : SynBlock)
  /-- `Expr::ForLoop`: the loop pattern's text, iterator, body. -/
  | forE (patText : String) (iter : SynExpr) (body : SynBlock)
  /-- `Expr::While`. -/
  | whileE (cond : SynExpr) (body : SynBlock)
  /-- Any other expression, carried as its token text. -/
  | otherE (text : String)

/-- A list of expressions (call / method-call arguments). -/
inductive SynExprList where
  | nil
  | cons (e : SynExpr) (rest : SynExprList)

/-- `syn::Stmt`. -/
inductive SynStmt where
  /-- `Stmt::Local` with an initialiser; `pat` is `some name` exactly for
  `Pat::Ident` patterns. -/
  | localInit (pat : Option String) (init : SynExpr)
  /-- `Stmt::Local` without an initialiser. -/
  | localBare (pat : Option String)
  /-- `Stmt::Expr` (with or without a trailing semicolon — the visitors
  never look at the semicolon). -/
  | exprStmt (e : SynExpr)
  /-- `Stmt::Macro` (a macro invocation in statement position, `syn` 2.x). -/
  | macroStmt (pathSegs : List String) (tokens : String)
  /-- `Stmt::Item` (not traversed by the modelled fragment). -/
  | itemStmt

/-- `syn::Block` as a list of statements. -/
inductive SynBlock where
  | nil
  | cons (s : SynStmt) (rest : SynBlock)
end

/-! ## Token rendering (model of `quote::quote!(#node).to_string()`)

`proc_macro2` prints identifiers verbatim and separates tokens with
spacing; every substring the Rust code searches for (`transfer`,
`transfer_checked`, `invoke`, `burn`, `require`, `assert`, `Context`) is a
single identifier token, so only verbatim identifiers and token
separation matter.  The renderer below guarantees both. -/

mutual
def renderExpr : SynExpr → String
  | SynExpr.pathE segs => String.intercalate " :: " segs
  | SynExpr.litInt v => toString v
  | SynExpr.litOther t => t
  | SynExpr.binary op l r => renderExpr l ++ " " ++ op ++ " " ++ renderExpr r
  | SynExpr.call fn args => renderExpr fn ++ " (" ++ renderExprList args ++ ")"
  | SynExpr.methodCall recv m args =>
      renderExpr recv ++ " . " ++ m ++ " (" ++ renderExprList args ++ ")"
  | SynExpr.paren e => "(" ++ renderExpr e ++ ")"
  | SynExpr.unary op e =>
      (match op with
        | UnOp.neg => "- "
        | UnOp.notOp => "! "
        | UnOp.deref => "* ") ++ renderExpr e
  | SynExpr.cast e ty => renderExpr e ++ " as " ++ ty
  | SynExpr.fieldE base m => renderExpr base ++ " . " ++ m
  | SynExpr.macroE segs toks =>
      String.intercalate " :: " segs ++ " ! (" ++ toks ++ ")"
  | SynExpr.ifThen c t =>
      "if " ++ renderExpr c ++ " ( " ++ renderBlock t ++ ")"
  | SynExpr.ifThenElse c t e =>
      "if " ++ renderExpr c ++ " ( " ++ renderBlock t ++ ") else ( " ++
        renderExpr e ++ " )"
  | SynExpr.blockE b => "( " ++ renderBlock b ++ ")"
  | SynExpr.loopE b => "loop ( " ++ renderBlock b ++ ")"
  | SynExpr.forE p it b =>
      "for " ++ p ++ " in " ++ renderExpr it ++ " ( " ++ renderBlock b ++ ")"
  | SynExpr.whileE c b =>
      "while " ++ renderExpr c ++ " ( " ++ renderBlock b ++ ")"
  | SynExpr.otherE t => t

def renderExprList : SynExprList → String
  | SynExprList.nil => ""
  | SynExprList.cons e SynExprList.nil => renderExpr e
  | SynExprList.cons e rest => renderExpr e ++ " , " ++ renderExprList rest

def renderStmt : SynStmt → String
  | SynStmt.localInit p i =>
      "let " ++ (p.getD "_") ++ " = " ++ renderExpr i ++ " ; "
  | SynStmt.localBare p => "let " ++ (p.getD "_") ++ " ; "
  | SynStmt.exprStmt e => renderExpr e ++ " ; "
  | SynStmt.macroStmt segs toks =>
      String.intercalate " :: " segs ++ " ! (" ++ toks ++ ") ; "
  | SynStmt.itemStmt => ""

def renderBlock : SynBlock → String
  | SynBlock.nil => ""
  | SynBlock.cons s rest => renderStmt s ++ renderBlock rest
end

/-! ## Taint Tracker (src/analysis/taint.rs) -/

/-- `TaintStatus`. -/
inductive TaintStatus where
  | clean
  | tainted
  | sanitized
  | unknown
deriving DecidableEq, Repr

/-- `TaintSinkType`. -/
inductive TaintSinkType where
  | transfer
  | invoke
  | arrayIndex
  | stateModification
  | uncheckedMath
deriving DecidableEq, Repr

/-- `TaintedFlow` exactly as declared in taint.rs: `variable` (here `var`,
since `variable` is reserved in Lean), `sink`, `line`, `code` — the struct
has no source/provenance field. -/
structure TaintedFlow where
  var : String
  sink : TaintSinkType
  line : Nat
  code : String
deriving DecidableEq, Repr

/-- The `TaintTracker` state together with the visitor's `current_line`
counter (in Rust the counter lives in the borrowing `TaintVisitor`; the
embedding threads one combined state). -/
structure TaintSt where
  context : List (String × TaintStatus)
  flows : List TaintedFlow
  source_lines : List String
  current_line : Nat
deriving Repr

/-- `TaintContext::get_status`: defaults to `Unknown`. -/
def get_status (ctx : List (String × TaintStatus)) (v : String) : TaintStatus :=
  (lookup ctx v).getD TaintStatus.unknown

/-- `TaintContext::set_status` on the threaded state. -/
def set_status (st : TaintSt) (v : String) (s : TaintStatus) : TaintSt :=
  { st with context := upsert st.context v s }

/-- `TaintTracker::new`. -/
def TaintTracker.new (source : String) : TaintSt :=
  { context := [], flows := [], source_lines := rustLines source,
    current_line := 0 }

/-- The excerpt of `record_flow`: the trimmed source line at index
`line.saturating_sub(1)` (empty when out of range). -/
def excerptAt (lines : List String) (line : Nat) : String :=
  ((lines.get? (line - 1)).map trimStr).getD ""

/-- The `TaintedFlow` value `record_flow` pushes for variable `v` at the
visitor's current line. -/
def mkFlow (st : TaintSt) (v : String) (sink : TaintSinkType) : TaintedFlow :=
  { var := v, sink := sink, line := st.current_line,
    code := excerptAt st.source_lines st.current_line }

/-- `TaintTracker::record_flow`: push a flow only when the variable is
currently `Tainted`. -/
def record_flow (st : TaintSt) (v : String) (sink : TaintSinkType)
    (line : Nat) : TaintSt :=
  if get_status st.context v = TaintStatus.tainted then
    { st with flows := st.flows ++
        [{ var := v, sink := sink, line := line,
           code := excerptAt st.source_lines line }] }
  else st

/-- `extract_vars_from_str`: split at non-word characters, keep non-empty
words starting with an alphabetic character. -/
def extract_vars_from_str (s : String) : List String :=
  (splitWords s).filter (fun w => !w.isEmpty && startsAlpha w)

mutual
/-- `extract_variables` / `extract_vars_recursive` over one expression. -/
def extract_variables : SynExpr → List String
  | SynExpr.pathE segs =>
      -- `get_ident()` for a one-segment path, else the first segment
      match segs with
      | [] => []
      | s :: _ => [s]
  | SynExpr.fieldE base _ => extract_variables base
  | SynExpr.binary _ l r => extract_variables l ++ extract_variables r
  | SynExpr.call _ args => extractVarsList args
  | SynExpr.methodCall recv _ args =>
      extract_variables recv ++ extractVarsList args
  | SynExpr.paren e => extract_variables e
  | SynExpr.unary _ e => extract_variables e
  | _ => []

/-- `extract_vars_recursive` over a call's argument list. -/
def extractVarsList : SynExprList → List String
  | SynExprList.nil => []
  | SynExprList.cons e r => extract_variables e ++ extractVarsList r
end

/-- Aggregation loop of `analyze_expr`'s non-ident-path arm:
`final_status` starts `Clean`, any `Tainted` returns immediately, any
`Unknown` downgrades the final status. -/
def statusFoldGo (ctx : List (String × TaintStatus)) :
    List String → TaintStatus → TaintStatus
  | [], final => final
  | v :: r, final =>
      match get_status ctx v with
      | TaintStatus.tainted => TaintStatus.tainted
      | TaintStatus.unknown => statusFoldGo ctx r TaintStatus.unknown
      | _ => statusFoldGo ctx r final

/-- Catch-all loop of `analyze_expr`: `Tainted` if any constituent name is
tainted, else `Unknown`. -/
def anyTainted (ctx : List (String × TaintStatus)) (vars : List String) : Bool :=
  vars.any (fun v => get_status ctx v == TaintStatus.tainted)

/-- `TaintVisitor::analyze_expr`. -/
def analyze_expr (ctx : List (String × TaintStatus)) : SynExpr → TaintStatus
  | SynExpr.pathE [s] => get_status ctx s
  | SynExpr.pathE segs =>
      statusFoldGo ctx (extract_variables (SynExpr.pathE segs)) TaintStatus.clean
  | SynExpr.binary _ l r =>
      let left := analyze_expr ctx l
      let right := analyze_expr ctx r
      if left = TaintStatus.tainted ∨ right = TaintStatus.tainted then
        TaintStatus.tainted
      else if left = TaintStatus.unknown ∨ right = TaintStatus.unknown then
        TaintStatus.unknown
      else TaintStatus.clean
  | SynExpr.litInt _ => TaintStatus.clean
  | SynExpr.litOther _ => TaintStatus.clean
  | SynExpr.call _ _ => TaintStatus.unknown
  | SynExpr.paren e => analyze_expr ctx e
  | SynExpr.unary _ e => analyze_expr ctx e
  | e =>
      if anyTainted ctx (extract_variables e) then TaintStatus.tainted
      else TaintStatus.unknown

/-- Record flows for every extracted variable of one argument
(the inner `for var in vars` loop of the sink arms). -/
def recordVars (st : TaintSt) (vars : List String) (sink : TaintSinkType) :
    TaintSt :=
  vars.foldl (fun s v => record_flow s v sink s.current_line) st

/-- The `for arg in &node.args` loop of the sink arms. -/
def recordArgsFlows (sink : TaintSinkType) :
    SynExprList → TaintSt → TaintSt
  | SynExprList.nil, st => st
  | SynExprList.cons a r, st =>
      recordArgsFlows sink r (recordVars st (extract_variables a) sink)

/-- Sanitisation loop of `visit_expr_if`: every currently-`Tainted`
condition name is set `Sanitized` and pushed onto the restore list
(in scan order). -/
def ifSanitize : List String → TaintSt → TaintSt × List String
  | [], st => (st, [])
  | v :: r, st =>
      if get_status st.context v = TaintStatus.tainted then
        let res := ifSanitize r (set_status st v TaintStatus.sanitized)
        (res.1, v :: res.2)
      else ifSanitize r st

/-- Restore loop of `visit_expr_if`: every pushed name is set back to
`Tainted` (its status when pushed). -/
def ifRestore : List String → TaintSt → TaintSt
  | [], st => st
  | v :: r, st => ifRestore r (set_status st v TaintStatus.tainted)

/-- Sanitising-assertion body of `visit_expr_macro`: every `Tainted` name
token of the macro arguments becomes `Sanitized`. -/
def sanitizeTokens (vars : List String) (st : TaintSt) : TaintSt :=
  vars.foldl
    (fun s v =>
      if get_status s.context v = TaintStatus.tainted then
        set_status s v TaintStatus.sanitized
      else s)
    st

/-- `TaintVisitor::visit_expr_macro`: only `require`/`assert`/`require_eq`
(last path segment) sanitise; it fires only for macros in expression
position (`syn` 2.x sends statement macros to `visit_macro`, which the
taint visitor does not override). -/
def taintMacroVisit (segs : List String) (toks : String) (st : TaintSt) :
    TaintSt :=
  let name := (segs.getLast?).getD ""
  if name = "require" ∨ name = "assert" ∨ name = "require_eq" then
    sanitizeTokens (extract_vars_from_str toks) st
  else st

mutual
/-- The taint visitor over expressions: overridden `Visit` methods follow
taint.rs, all other shapes follow `syn::visit`'s default recursion. -/
def tvExpr : SynExpr → TaintSt → TaintSt
  | SynExpr.pathE _, st => st
  | SynExpr.litInt _, st => st
  | SynExpr.litOther _, st => st
  | SynExpr.binary _ l r, st => tvExpr r (tvExpr l st)
  | SynExpr.call fn args, st =>
      -- visit_expr_call: substring sink vocabulary over the rendered call
      let lower := toLowerStr (renderExpr (SynExpr.call fn args))
      let st1 :=
        if containsSub lower "transfer" && !containsSub lower "transfer_checked"
        then recordArgsFlows TaintSinkType.transfer args st else st
      let st2 :=
        if containsSub lower "invoke"
        then recordArgsFlows TaintSinkType.invoke args st1 else st1
      tvExprList args (tvExpr fn st2)
  | SynExpr.methodCall recv m args, st =>
      -- visit_expr_method_call: the checked_/saturating_ arm is empty in
      -- the source; only `transfer` records flows
      let st1 :=
        if m = "transfer" then recordArgsFlows TaintSinkType.transfer args st
        else st
      tvExprList args (tvExpr recv st1)
  | SynExpr.paren e, st => tvExpr e st
  | SynExpr.unary _ e, st => tvExpr e st
  | SynExpr.cast e _, st => tvExpr e st
  | SynExpr.fieldE b _, st => tvExpr b st
  | SynExpr.macroE segs toks, st => taintMacroVisit segs toks st
  | SynExpr.ifThen c t, st =>
      let res := ifSanitize (extract_variables c) st
      ifRestore res.2 (tvBlock t res.1)
  | SynExpr.ifThenElse c t e, st =>
      let res := ifSanitize (extract_variables c) st
      tvExpr e (ifRestore res.2 (tvBlock t res.1))
  | SynExpr.blockE b, st => tvBlock b st
  | SynExpr.loopE b, st => tvBlock b st
  | SynExpr.forE _ it b, st => tvBlock b (tvExpr it st)
  | SynExpr.whileE c b, st => tvBlock b (tvExpr c st)
  | SynExpr.otherE _, st => st

def tvExprList : SynExprList → TaintSt → TaintSt
  | SynExprList.nil, st => st
  | SynExprList.cons e r, st => tvExprList r (tvExpr e st)

/-- `visit_stmt`: bump `current_line`, then dispatch (`Stmt::Local` runs
the overridden `visit_local`, `Stmt::Macro` reaches only the
non-overridden `visit_macro` and is inert for taint). -/
def tvStmt : SynStmt → TaintSt → TaintSt
  | s, st =>
      let st0 : TaintSt := { st with current_line := st.current_line + 1 }
      match s with
      | SynStmt.localInit pat init =>
          let rhs := analyze_expr st0.context init
          let st1 :=
            match pat with
            | some n => set_status st0 n rhs
            | none => st0
          tvExpr init st1
      | SynStmt.localBare _ => st0
      | SynStmt.exprStmt e => tvExpr e st0
      | SynStmt.macroStmt _ _ => st0
      | SynStmt.itemStmt => st0

def tvBlock : SynBlock → TaintSt → TaintSt
  | SynBlock.nil, st => st
  | SynBlock.cons s r, st => tvBlock r (tvStmt s st)
end

/-- Typed function signature inputs (`syn::FnArg`); `typed (some n) ty`
stands for a `Pat::Ident` parameter. -/
inductive SynFnArg where
  | receiver
  | typed (pat : Option String) (tyTokens : String)
deriving DecidableEq, Repr

/-- `syn::ItemFn` (name, signature inputs, body). -/
structure SynItemFn where
  name : String
  args : List SynFnArg
  body : SynBlock

/-- `TaintTracker::analyze_function`: seed every `Pat::Ident` typed
parameter and the name `ctx` as `Tainted`, then visit the body with a
fresh visitor (`current_line = 0`). -/
def analyze_function (st : TaintSt) (f : SynItemFn) : TaintSt :=
  let st1 := f.args.foldl
    (fun s a =>
      match a with
      | SynFnArg.typed (some n) _ => set_status s n TaintStatus.tainted
      | _ => s)
    st
  let st2 := set_status st1 "ctx" TaintStatus.tainted
  tvBlock f.body { st2 with current_line := 0 }

/-! ## Scope Tracker (src/analysis/cfg.rs) -/

/-- `ScopeTracker` state (`current_line` is declared in the Rust struct and
never updated). -/
structure ScopeSt where
  current_depth : Nat
  validated_at : List (String × Nat)
  usages : List (String × Nat × Nat)
  current_line : Nat
deriving DecidableEq, Repr

/-- `ScopeTracker::new` / `Default`. -/
def ScopeTracker.new : ScopeSt :=
  { current_depth := 0, validated_at := [], usages := [], current_line := 0 }

/-- `extract_vars_from_expr_str`: word split, alphabetic start, minus the
fixed blacklist. -/
def extract_vars_from_expr_str (s : String) : List String :=
  (splitWords s).filter
    (fun w => !w.isEmpty && startsAlpha w &&
      w ≠ "ctx" && w ≠ "accounts" && w ≠ "key" && w ≠ "unwrap" &&
      w ≠ "require" && w ≠ "true" && w ≠ "false")

/-- `entry(var).or_insert(depth)` followed by the `<`-update: net effect is
the minimum of the existing entry and the current depth. -/
def upsertMin (m : List (String × Nat)) (k : String) (d : Nat) :
    List (String × Nat) :=
  match m with
  | [] => [(k, d)]
  | (k0, v0) :: r =>
      if k0 = k then (k0, if d < v0 then d else v0) :: r
      else (k0, v0) :: upsertMin r k d

/-- `ScopeTracker::record_validation`. -/
def record_validation (st : ScopeSt) (v : String) : ScopeSt :=
  { st with validated_at := upsertMin st.validated_at v st.current_depth }

/-- `ScopeTracker::record_usage`. -/
def record_usage (st : ScopeSt) (v : String) (line : Nat) : ScopeSt :=
  { st with usages := st.usages ++ [(v, line, st.current_depth)] }

/-- The violation message built by `find_scope_violations`. -/
def violMsg (v : String) (validation usage : Nat) : String :=
  "Variable " ++ squote.toString ++ v ++ squote.toString ++
  " checked inside a block (depth " ++ toString validation ++
  ") but used outside (depth " ++ toString usage ++
  "). The check does not protect this usage."

/-- `ScopeTracker::find_scope_violations`. -/
def find_scope_violations (st : ScopeSt) : List (String × Nat × String) :=
  st.usages.foldl
    (fun acc u =>
      match lookup st.validated_at u.1 with
      | some vs =>
          if vs > u.2.2 then acc ++ [(u.1, u.2.1, violMsg u.1 vs u.2.2)]
          else acc
      | none => acc)
    []

/-- `ScopeTracker::visit_macro`: `quote!(#mac.path)` interpolates the whole
macro and appends the literal tokens `. path`, so the searched string is
the rendered macro followed by " . path". -/
def cfgMacroVisit (segs : List String) (toks : String) (st : ScopeSt) :
    ScopeSt :=
  let path_str := renderExpr (SynExpr.macroE segs toks) ++ " . path"
  if containsSub path_str "require" || containsSub path_str "assert" then
    (extract_vars_from_expr_str toks).foldl record_validation st
  else st

/-- Usage recording over one rendered argument string. -/
def recordUsagesFromStr (s : String) (st : ScopeSt) : ScopeSt :=
  (extract_vars_from_expr_str s).foldl (fun a v => record_usage a v 0) st

/-- The `for arg in &i.args` loop of cfg's `visit_expr_call`. -/
def cfgRecordArgs : SynExprList → ScopeSt → ScopeSt
  | SynExprList.nil, st => st
  | SynExprList.cons a r, st =>
      cfgRecordArgs r (recordUsagesFromStr (renderExpr a) st)

/-- Depth increment on entering a branch/loop/block body. -/
def depthInc (st : ScopeSt) : ScopeSt :=
  { st with current_depth := st.current_depth + 1 }

/-- Depth decrement on exit (Rust `usize` subtraction; the balance theorem
shows the value is always positive here, so truncation never occurs). -/
def depthDec (st : ScopeSt) : ScopeSt :=
  { st with current_depth := st.current_depth - 1 }

mutual
/-- The scope visitor over expressions: overridden `Visit` methods follow
cfg.rs, the rest follow `syn::visit`'s default recursion. -/
def cfgExpr : SynExpr → ScopeSt → ScopeSt
  | SynExpr.pathE _, st => st
  | SynExpr.litInt _, st => st
  | SynExpr.litOther _, st => st
  | SynExpr.binary _ l r, st => cfgExpr r (cfgExpr l st)
  | SynExpr.call fn args, st =>
      -- visit_expr_call: `quote!(#i.func)` renders the whole call plus
      -- literal `. func`; the check is case-sensitive
      let func_name := renderExpr (SynExpr.call fn args) ++ " . func"
      let st1 :=
        if containsSub func_name "transfer" || containsSub func_name "invoke" ||
           containsSub func_name "burn"
        then cfgRecordArgs args st else st
      cfgExprList args (cfgExpr fn st1)
  | SynExpr.methodCall recv m args, st =>
      -- visit_expr_method_call: `quote!(#i.receiver)` renders the whole
      -- method call plus literal `. receiver`
      let st1 :=
        if m = "borrow_mut" || m = "try_borrow_mut" then
          recordUsagesFromStr
            (renderExpr (SynExpr.methodCall recv m args) ++ " . receiver") st
        else st
      cfgExprList args (cfgExpr recv st1)
  | SynExpr.paren e, st => cfgExpr e st
  | SynExpr.unary _ e, st => cfgExpr e st
  | SynExpr.cast e _, st => cfgExpr e st
  | SynExpr.fieldE b _, st => cfgExpr b st
  | SynExpr.macroE segs toks, st => cfgMacroVisit segs toks st
  | SynExpr.ifThen c t, st =>
      depthDec (cfgBlock t (depthInc (cfgExpr c st)))
  | SynExpr.ifThenElse c t e, st =>
      let st1 := depthDec (cfgBlock t (depthInc (cfgExpr c st)))
      depthDec (cfgExpr e (depthInc st1))
  | SynExpr.blockE b, st => depthDec (cfgBlock b (depthInc st))
  | SynExpr.loopE b, st => depthDec (cfgBlock b (depthInc st))
  | SynExpr.forE _ it b, st =>
      depthDec (cfgBlock b (depthInc (cfgExpr it st)))
  | SynExpr.whileE c b, st =>
      depthDec (cfgBlock b (depthInc (cfgExpr c st)))
  | SynExpr.otherE _, st => st

def cfgExprList : SynExprList → ScopeSt → ScopeSt
  | SynExprList.nil, st => st
  | SynExprList.cons e r, st => cfgExprList r (cfgExpr e st)

/-- Statements: cfg.rs overrides no statement visitor, so this is the
default dispatch (`Stmt::Macro` reaches the overridden `visit_macro`). -/
def cfgStmt : SynStmt → ScopeSt → ScopeSt
  | SynStmt.localInit _ init, st => cfgExpr init st
  | SynStmt.localBare _, st => st
  | SynStmt.exprStmt e, st => cfgExpr e st
  | SynStmt.macroStmt segs toks, st => cfgMacroVisit segs toks st
  | SynStmt.itemStmt, st => st

def cfgBlock : SynBlock → ScopeSt → ScopeSt
  | SynBlock.nil, st => st
  | SynBlock.cons s r, st => cfgBlock r (cfgStmt s st)
end

/-! ## Program Index (src/analysis/context.rs) -/

/-- A named-struct field (`syn::Field` with `Some` ident). -/
structure SynField where
  vis_pub : Bool
  name : Option String
  tyTokens : String
deriving DecidableEq, Repr

/-- `syn::ItemStruct`: name, rendered attribute strings, and `Some` field
list exactly when the fields are `Fields::Named`. -/
structure ItemStructS where
  name : String
  attrs : List String
  namedFields : Option (List SynField)
deriving DecidableEq, Repr

/-- `syn::ItemConst`. -/
structure ItemConstS where
  vis_pub : Bool
  name : String
  tyTokens : String
  expr : SynExpr

mutual
/-- `syn::Item` (the shapes `extract_from_file` dispatches on). -/
inductive SynItem where
  | structI (s : ItemStructS)
  | constI (c : ItemConstS)
  | fnI (f : SynItemFn)
  /-- `Item::Mod`: `none` models a declaration without inline content. -/
  | modI (content : Option SynItemList)
  | otherI

/-- A file's item list. -/
inductive SynItemList where
  | nil
  | cons (i : SynItem) (rest : SynItemList)
end

/-- `StructInfo`. -/
structure StructInfo where
  name : String
  file : String
  fields : List (String × String)
  is_account : Bool
  is_accounts_context : Bool
deriving DecidableEq, Repr

/-- `ConstantInfo`. -/
structure ConstantInfo where
  name : String
  value : Option Int
  value_str : String
deriving DecidableEq, Repr

/-- `InstructionInfo`. -/
structure InstructionInfo where
  name : String
  file : String
  args : List (String × String)
  context_type : Option String
  line : Nat
deriving DecidableEq, Repr

/-- `ProgramContext`. -/
structure ProgramContext where
  structs : List (String × StructInfo)
  accounts : List (String × StructInfo)
  constants : List (String × ConstantInfo)
  instructions : List InstructionInfo
  file_cache : List (String × String)
deriving DecidableEq, Repr

/-- `ProgramContext::new`. -/
def ProgramContext.new : ProgramContext :=
  { structs := [], accounts := [], constants := [], instructions := [],
    file_cache := [] }

/-- Rendered text of a field, as `quote!(#field.ty)` produces it: the whole
field's tokens followed by the literal `. ty`. -/
def renderFieldTy (f : SynField) : String :=
  (if f.vis_pub then "pub " else "") ++ (f.name.getD "") ++ " : " ++
    f.tyTokens ++ " . ty"

/-- The `StructInfo` value `index_struct` builds: attribute classification
by substring, named fields collected into the field map. -/
def structInfoOf (path : String) (s : ItemStructS) : StructInfo :=
  { name := s.name, file := path,
    fields :=
      match s.namedFields with
      | some fl =>
          fl.foldl
            (fun m f =>
              match f.name with
              | some n => upsert m n (renderFieldTy f)
              | none => m)
            []
      | none => [],
    is_account := s.attrs.any (fun a => containsSub a "account"),
    is_accounts_context :=
      s.attrs.any (fun a => containsSub a "derive" && containsSub a "Accounts") }

/-- `ProgramContext::index_struct`: store in the accounts map only when
classified as an account, then always in the general struct map. -/
def index_struct (ctx : ProgramContext) (path : String) (s : ItemStructS) :
    ProgramContext :=
  let info := structInfoOf path s
  let ctx1 :=
    if info.is_account then
      { ctx with accounts := upsert ctx.accounts s.name info }
    else ctx
  { ctx1 with structs := upsert ctx1.structs s.name info }

/-- `i128::MAX`. -/
def i128Max : Int := 2 ^ 127 - 1

/-- `ProgramContext::extract_numeric_value`: best-effort folding over
integer literals, casts, parens and unary negation; `base10_parse::<i128>`
succeeds exactly for literals within `i128` range. -/
def extract_numeric_value : SynExpr → Option Int
  | SynExpr.litInt v => if (v : Int) ≤ i128Max then some (v : Int) else none
  | SynExpr.cast e _ => extract_numeric_value e
  | SynExpr.paren e => extract_numeric_value e
  | SynExpr.unary UnOp.neg e => (extract_numeric_value e).map (fun x => -x)
  | _ => none

/-- Rendered text of `quote!(#c.expr)`: the whole const item's tokens
followed by the literal `. expr`. -/
def renderConstExprStr (c : ItemConstS) : String :=
  (if c.vis_pub then "pub " else "") ++ "const " ++ c.name ++ " : " ++
    c.tyTokens ++ " = " ++ renderExpr c.expr ++ " ; . expr"

/-- `ProgramContext::index_constant`: the constant is recorded whether or
not the value resolves. -/
def index_constant (ctx : ProgramContext) (c : ItemConstS) : ProgramContext :=
  let info : ConstantInfo :=
    { name := c.name, value := extract_numeric_value c.expr,
      value_str := renderConstExprStr c }
  { ctx with constants := upsert ctx.constants c.name info }

/-- First index of a character in a list. -/
def findIdx? (c : Char) : List Char → Option Nat
  | [] => none
  | x :: r =>
      if x = c then some 0
      else (findIdx? c r).map (· + 1)

/-- Last index of a character in a list. -/
def rfindIdx? (c : Char) (l : List Char) : Option Nat :=
  match findIdx? c l.reverse with
  | some k => some (l.length - 1 - k)
  | none => none

/-- `arg_type[start+1..end].trim()` of `index_function`.  For token streams
rendered from parsed types every `<` is matched by a later `>`, so the
Rust byte-range `start+1..end` is well-formed; the guard makes the model
total. -/
def sliceCtxArg (s : String) (i j : Nat) : Option String :=
  if i + 1 ≤ j then
    some (trimStr (String.mk ((s.toList.drop (i + 1)).take (j - (i + 1)))))
  else none

/-- The `Context<T>` detection of `index_function` on one argument's
rendered `quote!(#pat_type.ty)` string (the whole `pat : ty` tokens plus
literal `. ty`); when it does not fire the previously found context type
is kept. -/
def ctxTypeStep (argType : String) (prev : Option String) : Option String :=
  if containsSub argType "Context" then
    match findIdx? '<' argType.toList, rfindIdx? '>' argType.toList with
    | some i, some j =>
        match sliceCtxArg argType i j with
        | some t => some t
        | none => prev
    | _, _ => prev
  else prev

/-- `ProgramContext::index_function`: record an instruction only when some
parameter's type text mentions `Context` with a type argument. -/
def index_function (ctx : ProgramContext) (path : String) (f : SynItemFn) :
    ProgramContext :=
  let folded :=
    f.args.foldl
      (fun (acc : List (String × String) × Option String) a =>
        match a with
        | SynFnArg.typed (some n) ty =>
            let argType := n ++ " : " ++ ty ++ " . ty"
            (upsert acc.1 n argType, ctxTypeStep argType acc.2)
        | _ => acc)
      ([], none)
  let info : InstructionInfo :=
    { name := f.name, file := path, args := folded.1,
      context_type := folded.2, line := 0 }
  if folded.2.isSome then
    { ctx with instructions := ctx.instructions ++ [info] }
  else ctx

/-- The nested-module loop of `extract_from_file`: one level, structs
only. -/
def indexModStructs (ctx : ProgramContext) (path : String) :
    SynItemList → ProgramContext
  | SynItemList.nil => ctx
  | SynItemList.cons i r =>
      let ctx1 :=
        match i with
        | SynItem.structI s => index_struct ctx path s
        | _ => ctx
      indexModStructs ctx1 path r

/-- `ProgramContext::extract_from_file`. -/
def extract_from_file (ctx : ProgramContext) (path : String) :
    SynItemList → ProgramContext
  | SynItemList.nil => ctx
  | SynItemList.cons i r =>
      let ctx1 :=
        match i with
        | SynItem.structI s => index_struct ctx path s
        | SynItem.constI c => index_constant ctx c
        | SynItem.fnI f => index_function ctx path f
        | SynItem.modI (some items) => indexModStructs ctx path items
        | _ => ctx
      extract_from_file ctx1 path r

/-- `ProgramContext::index_file`.  `syn::parse_file` belongs to the
external parser collaborator, so its outcome is passed explicitly:
`parsed = none` models a parse failure. -/
def index_file (ctx : ProgramContext) (path source : String)
    (parsed : Option SynItemList) : ProgramContext :=
  let ctx1 := { ctx with file_cache := upsert ctx.file_cache path source }
  match parsed with
  | some items => extract_from_file ctx1 path items
  | none => ctx1

/-- Indexing a sequence of files (pass 1). -/
def indexFiles (ctx : ProgramContext) :
    List (String × String × Option SynItemList) → ProgramContext
  | [] => ctx
  | (p, s, parsed) :: r => indexFiles (index_file ctx p s parsed) r

/-- `ProgramContext::resolve_struct`. -/
def resolve_struct (ctx : ProgramContext) (name : String) :
    Option StructInfo :=
  lookup ctx.structs name

/-- `ProgramContext::resolve_constant`. -/
def resolve_constant (ctx : ProgramContext) (name : String) : Option Int :=
  (lookup ctx.constants name).bind (fun c => c.value)

/-- `ProgramContext::get_account_field_type`. -/
def get_account_field_type (ctx : ProgramContext)
    (structName fieldName : String) : Option String :=
  (lookup ctx.structs structName).bind (fun s => lookup s.fields fieldName)

/-- `ScopeTracker::analyze` on one function item (`visit_item_fn` visits
the signature, which records nothing, then the body). -/
def cfgAnalyzeFn (f : SynItemFn) (st : ScopeSt) : ScopeSt :=
  cfgBlock f.body st

mutual
/-- `ScopeTracker::analyze` over a parsed file: the default `visit_file`
recursion into items (function bodies, const initialisers, inline
modules). -/
def cfgItem : SynItem → ScopeSt → ScopeSt
  | SynItem.structI _, st => st
  | SynItem.constI c, st => cfgExpr c.expr st
  | SynItem.fnI f, st => cfgBlock f.body st
  | SynItem.modI (some items), st => cfgItems items st
  | SynItem.modI none, st => st
  | SynItem.otherI, st => st

def cfgItems : SynItemList → ScopeSt → ScopeSt
  | SynItemList.nil, st => st
  | SynItemList.cons i r, st => cfgItems r (cfgItem i st)
end

/-- `ScopeTracker::analyze`. -/
def ScopeTracker.analyze (st : ScopeSt) (file : SynItemList) : ScopeSt :=
  cfgItems file st

/-! ## Lemmas: taint-state primitives -/

theorem get_status_set_self (st : TaintSt) (v : String) (s : TaintStatus) :
    get_status (set_status st v s).context v = s := by
  simp [get_status, set_status, lookup_upsert_self]

theorem get_status_set_ne (st : TaintSt) (v w : String) (s : TaintStatus)
    (h : v ≠ w) :
    get_status (set_status st v s).context w = get_status st.context w := by
  simp [get_status, set_status, lookup_upsert_ne _ _ _ _ h]

theorem record_flow_context (st : TaintSt) (v : String) (k : TaintSinkType)
    (l : Nat) : (record_flow st v k l).context = st.context := by
  unfold record_flow; split <;> rfl

theorem record_flow_line (st : TaintSt) (v : String) (k : TaintSinkType)
    (l : Nat) : (record_flow st v k l).current_line = st.current_line := by
  unfold record_flow; split <;> rfl

theorem record_flow_src (st : TaintSt) (v : String) (k : TaintSinkType)
    (l : Nat) : (record_flow st v k l).source_lines = st.source_lines := by
  unfold record_flow; split <;> rfl

/-- The flows a sink arm generates from a name list: one `TaintedFlow` per
occurrence whose current status is `Tainted`, in scan order. -/
def flowsFor (st : TaintSt) (vars : List String) (sink : TaintSinkType) :
    List TaintedFlow :=
  (vars.filter (fun v => get_status st.context v == TaintStatus.tainted)).map
    (fun v => mkFlow st v sink)

/-- `recordVars` in closed form: the statuses are unchanged and one flow is
appended per tainted name occurrence, in order, with no deduplication. -/
theorem recordVars_eq (vars : List String) (st : TaintSt)
    (sink : TaintSinkType) :
    recordVars st vars sink =
      { st with flows := st.flows ++ flowsFor st vars sink } := by
  induction vars generalizing st with
  | nil => simp [recordVars, flowsFor]
  | cons v r ih =>
    unfold recordVars at ih ⊢
    simp only [List.foldl_cons]
    by_cases h : get_status st.context v = TaintStatus.tainted
    · rw [record_flow, if_pos h]
      rw [ih]
      simp [h, flowsFor, mkFlow, excerptAt, List.filter_cons]
    · rw [record_flow, if_neg h]
      rw [ih]
      simp [h, flowsFor, List.filter_cons]

/-- `recordArgsFlows` in closed form: over all arguments, the extracted
names are concatenated (`extractVarsList`) and one flow is appended per
tainted occurrence. -/
theorem recordArgsFlows_eq : ∀ (args : SynExprList) (st : TaintSt)
    (sink : TaintSinkType),
    recordArgsFlows sink args st =
      { st with flows := st.flows ++ flowsFor st (extractVarsList args) sink }
  | SynExprList.nil, st, sink => by
      simp [recordArgsFlows, extractVarsList, flowsFor]
  | SynExprList.cons a r, st, sink => by
      rw [recordArgsFlows, recordVars_eq, recordArgsFlows_eq r]
      simp [extractVarsList, flowsFor, mkFlow, excerptAt, List.filter_append]

/-- `ifSanitize` leaves an already-`Sanitized` name untouched and never
pushes it onto the restore list. -/
theorem ifSanitize_sanitized_invariant :
    ∀ (l : List String) (st : TaintSt) (v : String),
    get_status st.context v = TaintStatus.sanitized →
    get_status (ifSanitize l st).1.context v = TaintStatus.sanitized ∧
    v ∉ (ifSanitize l st).2
  | [], st, v, h => by simpa [ifSanitize] using h
  | u :: r, st, v, h => by
      by_cases hu : get_status st.context u = TaintStatus.tainted
      · have hne : u ≠ v := by
          intro e; rw [e, h] at hu; exact absurd hu (by decide)
        have h' : get_status (set_status st u TaintStatus.sanitized).context v =
            TaintStatus.sanitized := by
          rw [get_status_set_ne st u v _ hne]; exact h
        have ih := ifSanitize_sanitized_invariant r
          (set_status st u TaintStatus.sanitized) v h'
        refine ⟨?_, ?_⟩ <;> simp only [ifSanitize, if_pos hu]
        · exact ih.1
        · intro hc
          rcases List.mem_cons.mp hc with he | hr
          · exact hne he.symm
          · exact ih.2 hr
      · have ih := ifSanitize_sanitized_invariant r st v h
        simpa only [ifSanitize, if_neg hu] using ih

/-- `ifSanitize` sets every currently-`Tainted` condition name `Sanitized`
and pushes it onto the restore list. -/
theorem ifSanitize_tainted :
    ∀ (l : List String) (st : TaintSt) (v : String),
    v ∈ l →
    get_status st.context v = TaintStatus.tainted →
    get_status (ifSanitize l st).1.context v = TaintStatus.sanitized ∧
    v ∈ (ifSanitize l st).2
  | [], _, _, hm, _ => absurd hm (List.not_mem_nil _)
  | u :: r, st, v, hm, hv => by
      by_cases hu : get_status st.context u = TaintStatus.tainted
      · by_cases huv : u = v
        · subst huv
          have h1 : get_status (set_status st u TaintStatus.sanitized).context u =
              TaintStatus.sanitized := get_status_set_self st u _
          have h2 := ifSanitize_sanitized_invariant r
            (set_status st u TaintStatus.sanitized) u h1
          refine ⟨?_, ?_⟩ <;> simp only [ifSanitize, if_pos hu]
          · exact h2.1
          · exact List.mem_cons_self u _
        · have hvr : v ∈ r := by
            rcases List.mem_cons.mp hm with he | hr
            · exact absurd he.symm huv
            · exact hr
          have hv' : get_status (set_status st u TaintStatus.sanitized).context v =
              TaintStatus.tainted := by
            rw [get_status_set_ne st u v _ huv]; exact hv
          have ih := ifSanitize_tainted r (set_status st u TaintStatus.sanitized)
            v hvr hv'
          refine ⟨?_, ?_⟩ <;> simp only [ifSanitize, if_pos hu]
          · exact ih.1
          · exact List.mem_cons_of_mem u ih.2
      · have huv : u ≠ v := fun e => hu (e ▸ hv)
        have hvr : v ∈ r := by
          rcases List.mem_cons.mp hm with he | hr
          · exact absurd he.symm huv
          · exact hr
        have ih := ifSanitize_tainted r st v hvr hv
        simpa only [ifSanitize, if_neg hu] using ih

/-- After `ifRestore`, every name on the restore list is `Tainted`. -/
theorem ifRestore_tainted :
    ∀ (l : List String) (st : TaintSt) (v : String),
    (v ∈ l ∨ get_status st.context v = TaintStatus.tainted) →
    get_status (ifRestore l st).context v = TaintStatus.tainted
  | [], st, v, h => by
      rcases h with hm | hs
      · exact absurd hm (List.not_mem_nil _)
      · simpa [ifRestore] using hs
  | u :: r, st, v, h => by
      rw [ifRestore]
      apply ifRestore_tainted r
      rcases h with hm | hs
      · rcases List.mem_cons.mp hm with he | hr
        · right; rw [he]; exact get_status_set_self st u _
        · left; exact hr
      · by_cases huv : u = v
        · right; rw [← huv]; exact get_status_set_self st u _
        · right; rw [get_status_set_ne st u v _ huv]; exact hs

/-- `sanitizeTokens` keeps an already-`Sanitized` name `Sanitized`. -/
theorem sanitizeTokens_sanitized_stays (l : List String) :
    ∀ (st : TaintSt) (v : String),
    get_status st.context v = TaintStatus.sanitized →
    get_status (sanitizeTokens l st).context v = TaintStatus.sanitized := by
  induction l with
  | nil => intro st v h; simpa [sanitizeTokens] using h
  | cons u r ih =>
    intro st v h
    unfold sanitizeTokens at ih ⊢
    simp only [List.foldl_cons]
    by_cases hu : get_status st.context u = TaintStatus.tainted
    · rw [if_pos hu]
      apply ih
      have hne : u ≠ v := by
        intro e; rw [e, h] at hu; exact absurd hu (by decide)
      rw [get_status_set_ne st u v _ hne]; exact h
    · rw [if_neg hu]; exact ih st v h

/-- `sanitizeTokens` sets every currently-`Tainted` listed name
`Sanitized`. -/
theorem sanitizeTokens_sets (l : List String) :
    ∀ (st : TaintSt) (v : String),
    v ∈ l →
    get_status st.context v = TaintStatus.tainted →
    get_status (sanitizeTokens l st).context v = TaintStatus.sanitized := by
  induction l with
  | nil => intro st v hm; exact absurd hm (List.not_mem_nil _)
  | cons u r ih =>
    intro st v hm hv
    unfold sanitizeTokens at ih ⊢
    simp only [List.foldl_cons]
    by_cases hu : get_status st.context u = TaintStatus.tainted
    · rw [if_pos hu]
      by_cases huv : u = v
      · subst huv
        exact sanitizeTokens_sanitized_stays r _ u (get_status_set_self st u _)
      · have hvr : v ∈ r := by
          rcases List.mem_cons.mp hm with he | hr
          · exact absurd he.symm huv
          · exact hr
        apply ih _ v hvr
        rw [get_status_set_ne st u v _ huv]; exact hv
    · rw [if_neg hu]
      have huv : u ≠ v := fun e => hu (e ▸ hv)
      have hvr : v ∈ r := by
        rcases List.mem_cons.mp hm with he | hr
        · exact absurd he.symm huv
        · exact hr
      exact ih st v hvr hv

/-! ## Concrete example programs (ASTs as `syn` 2.x parses the snippets) -/

/-- One-element argument list. -/
def el1 (e : SynExpr) : SynExprList := SynExprList.cons e SynExprList.nil

/-- Two-element argument list. -/
def el2 (a b : SynExpr) : SynExprList := SynExprList.cons a (el1 b)

/-- One-statement block. -/
def bl1 (s : SynStmt) : SynBlock := SynBlock.cons s SynBlock.nil

/-- Two-statement block. -/
def bl2 (a b : SynStmt) : SynBlock := SynBlock.cons a (bl1 b)

/-- Three-statement block. -/
def bl3 (a b c : SynStmt) : SynBlock := SynBlock.cons a (bl2 b c)

/-- `fn withdraw(ctx: Context<Withdraw>, amount: u64) {
  if cond { require!(amount > 0); } transfer(amount); }` — note that
`require!(amount > 0);` in statement position is `Stmt::Macro`. -/
def fnC1 : SynItemFn :=
  { name := "withdraw",
    args := [SynFnArg.typed (some "ctx") "Context < Withdraw >",
             SynFnArg.typed (some "amount") "u64"],
    body := bl2
      (SynStmt.exprStmt (SynExpr.ifThen (SynExpr.pathE ["cond"])
        (bl1 (SynStmt.macroStmt ["require"] "amount > 0"))))
      (SynStmt.exprStmt (SynExpr.call (SynExpr.pathE ["transfer"])
        (el1 (SynExpr.pathE ["amount"])))) }

/-- Source text whose third line holds the transfer call. -/
def srcC1 : String := "line one\nline two\n  transfer(amount);"

/-- `fn f(ctx: Context<T>, x: u64) { transfer(x, x); }` — one call site,
the variable `x` occurring in two arguments. -/
def fnC3 : SynItemFn :=
  { name := "f",
    args := [SynFnArg.typed (some "ctx") "Context < T >",
             SynFnArg.typed (some "x") "u64"],
    body := bl1 (SynStmt.exprStmt (SynExpr.call (SynExpr.pathE ["transfer"])
      (el2 (SynExpr.pathE ["x"]) (SynExpr.pathE ["x"])))) }

/-- Source text for the duplicate-flow example. -/
def srcC3 : String := "transfer(x, x);"

/-- `fn g(ctx: Context<T>, amount: u64, other: u64) {
  let _g = require!(amount > 0); let amount = other; transfer(amount); }`
— the macro sits in expression position, so `visit_expr_macro` fires. -/
def fnC5 : SynItemFn :=
  { name := "g",
    args := [SynFnArg.typed (some "ctx") "Context < T >",
             SynFnArg.typed (some "amount") "u64",
             SynFnArg.typed (some "other") "u64"],
    body := bl3
      (SynStmt.localInit (some "_g") (SynExpr.macroE ["require"] "amount > 0"))
      (SynStmt.localInit (some "amount") (SynExpr.pathE ["other"]))
      (SynStmt.exprStmt (SynExpr.call (SynExpr.pathE ["transfer"])
        (el1 (SynExpr.pathE ["amount"])))) }

/-- The state of `analyze_function` on `fnC5` after seeding, before the
body is visited. -/
def seedC5 : TaintSt :=
  analyze_function (TaintTracker.new "") { fnC5 with body := SynBlock.nil }

/-- `fn withdraw(ctx: Context<W>, amount: u64) { transfer(amount); }`. -/
def fnC6 : SynItemFn :=
  { name := "withdraw",
    args := [SynFnArg.typed (some "ctx") "Context < W >",
             SynFnArg.typed (some "amount") "u64"],
    body := bl1 (SynStmt.exprStmt (SynExpr.call (SynExpr.pathE ["transfer"])
      (el1 (SynExpr.pathE ["amount"])))) }

/-- Source text for `fnC6`. -/
def srcC6 : String := "transfer(amount);"

/-- The state of `analyze_function` on `fnC6` after seeding, before the
body is visited. -/
def seedC6 : TaintSt :=
  analyze_function (TaintTracker.new srcC6) { fnC6 with body := SynBlock.nil }

/-! ## Claim theorems: Taint Tracker -/

/-- C1: every `Tainted` name of an `if` condition is `Sanitized` exactly
for the `then`-branch visit: it is `Sanitized` in the state the branch is
entered with, the visit of the whole `if` restores it (to its original
`Tainted`) right after the branch, and the `else` branch — like everything
after the `if` — is visited in that restored state.  Consequently the body
`if cond { require!(amount > 0); } transfer(amount);` yields exactly one
`TaintedFlow`, for `amount` at the transfer line. -/
theorem claim_C1_branch_sanitization (st : TaintSt) (c : SynExpr)
    (t : SynBlock) (e : SynExpr) (v : String)
    (hv : v ∈ extract_variables c)
    (ht : get_status st.context v = TaintStatus.tainted) :
    get_status (ifSanitize (extract_variables c) st).1.context v =
      TaintStatus.sanitized ∧
    tvExpr (SynExpr.ifThen c t) st =
      ifRestore (ifSanitize (extract_variables c) st).2
        (tvBlock t (ifSanitize (extract_variables c) st).1) ∧
    tvExpr (SynExpr.ifThenElse c t e) st =
      tvExpr e (ifRestore (ifSanitize (extract_variables c) st).2
        (tvBlock t (ifSanitize (extract_variables c) st).1)) ∧
    get_status (ifRestore (ifSanitize (extract_variables c) st).2
      (tvBlock t (ifSanitize (extract_variables c) st).1)).context v =
      TaintStatus.tainted ∧
    (analyze_function (TaintTracker.new srcC1) fnC1).flows =
      [{ var := "amount", sink := TaintSinkType.transfer, line := 3,
         code := "transfer(amount);" }] := by
  obtain ⟨h1, h2⟩ := ifSanitize_tainted (extract_variables c) st v hv ht
  refine ⟨h1, rfl, rfl, ?_, by decide⟩
  exact ifRestore_tainted _ _ v (Or.inl h2)

/-- Witness for C1 at a concrete condition and state. -/
theorem claim_C1_witness :
    get_status (ifSanitize (extract_variables (SynExpr.pathE ["amount"]))
      { context := [("amount", TaintStatus.tainted)], flows := [],
        source_lines := [], current_line := 0 }).1.context "amount" =
      TaintStatus.sanitized :=
  (claim_C1_branch_sanitization
    { context := [("amount", TaintStatus.tainted)], flows := [],
      source_lines := [], current_line := 0 }
    (SynExpr.pathE ["amount"]) SynBlock.nil (SynExpr.otherE "x") "amount"
    (by decide) (by decide)).1

/-- C3 counterexample: at the single recognised sink call site
`transfer(x, x);` with tainted `x`, the tracker pushes two identical
`TaintedFlow` entries for the pair (`x`, this site) — `record_flow`
deduplicates nothing. -/
theorem claim_C3_counterexample :
    (analyze_function (TaintTracker.new srcC3) fnC3).flows =
      [{ var := "x", sink := TaintSinkType.transfer, line := 1,
         code := "transfer(x, x);" },
       { var := "x", sink := TaintSinkType.transfer, line := 1,
         code := "transfer(x, x);" }] := by decide

/-- C3 amended: at a call whose lowered text matches the transfer
vocabulary (and not the invoke vocabulary), the visit appends exactly one
`TaintedFlow` per *occurrence* of a currently-tainted constituent name
across the argument list (`flowsFor`), with no (variable, call-site)
deduplication, and then recurses into the sub-expressions — which may
append further flows of their own at nested matching calls. -/
theorem claim_C3_flows_per_occurrence (fn : SynExpr) (args : SynExprList)
    (st : TaintSt)
    (h1 : containsSub (toLowerStr (renderExpr (SynExpr.call fn args)))
      "transfer" = true)
    (h2 : containsSub (toLowerStr (renderExpr (SynExpr.call fn args)))
      "transfer_checked" = false)
    (h3 : containsSub (toLowerStr (renderExpr (SynExpr.call fn args)))
      "invoke" = false) :
    tvExpr (SynExpr.call fn args) st =
      tvExprList args (tvExpr fn
        { st with flows := st.flows ++
            flowsFor st (extractVarsList args) TaintSinkType.transfer }) := by
  rw [tvExpr]
  simp only [h1, h2, h3, Bool.not_false, Bool.and_self, if_true, if_false,
    Bool.false_eq_true, recordArgsFlows_eq]

/-- Witness for the amended C3 at `transfer(x, x)` with tainted `x`. -/
theorem claim_C3_witness :
    tvExpr (SynExpr.call (SynExpr.pathE ["transfer"])
        (el2 (SynExpr.pathE ["x"]) (SynExpr.pathE ["x"])))
      { context := [("x", TaintStatus.tainted)], flows := [],
        source_lines := [], current_line := 1 } =
      tvExprList (el2 (SynExpr.pathE ["x"]) (SynExpr.pathE ["x"]))
        (tvExpr (SynExpr.pathE ["transfer"])
          { context := [("x", TaintStatus.tainted)],
            flows := [] ++ flowsFor
              { context := [("x", TaintStatus.tainted)], flows := [],
                source_lines := [], current_line := 1 }
              (extractVarsList (el2 (SynExpr.pathE ["x"]) (SynExpr.pathE ["x"])))
              TaintSinkType.transfer,
            source_lines := [], current_line := 1 }) :=
  claim_C3_flows_per_occurrence (SynExpr.pathE ["transfer"])
    (el2 (SynExpr.pathE ["x"]) (SynExpr.pathE ["x"]))
    { context := [("x", TaintStatus.tainted)], flows := [],
      source_lines := [], current_line := 1 }
    (by decide) (by decide) (by decide)

/-- C4: visiting a method call whose name starts with `checked_` or
`saturating_` contributes nothing at that call site: the visit equals the
plain recursion into receiver and arguments, so a `Tainted` receiver
produces no `TaintedFlow` there (for a bare-path receiver with no
arguments the state is completely unchanged). -/
theorem claim_C4_checked_receiver (recv : SynExpr) (m : String)
    (args : SynExprList) (st : TaintSt) (w : String)
    (h : startsWithStr m "checked_" = true ∨
         startsWithStr m "saturating_" = true) :
    tvExpr (SynExpr.methodCall recv m args) st =
      tvExprList args (tvExpr recv st) ∧
    tvExpr (SynExpr.methodCall (SynExpr.pathE [w]) m SynExprList.nil) st =
      st := by
  have hm : m ≠ "transfer" := by
    intro e; subst e
    rcases h with h | h <;> exact absurd h (by decide)
  constructor
  · rw [tvExpr]; simp [hm]
  · rw [tvExpr]; simp [hm, tvExpr, tvExprList]

/-- Witness for C4 at `amount.checked_add(10)` with tainted `amount`. -/
theorem claim_C4_witness :
    tvExpr (SynExpr.methodCall (SynExpr.pathE ["amount"]) "checked_add"
        SynExprList.nil)
      { context := [("amount", TaintStatus.tainted)], flows := [],
        source_lines := [], current_line := 0 } =
      { context := [("amount", TaintStatus.tainted)], flows := [],
        source_lines := [], current_line := 0 } :=
  (claim_C4_checked_receiver (SynExpr.pathE ["amount"]) "checked_add"
    SynExprList.nil
    { context := [("amount", TaintStatus.tainted)], flows := [],
      source_lines := [], current_line := 0 }
    "amount" (Or.inl (by decide))).2

/-- C5 counterexample: in
`let _g = require!(amount > 0); let amount = other; transfer(amount);`
the macro visit sets `amount` `Sanitized`, but the following `let`
re-binding with tainted right-hand side puts it back to `Tainted`, and the
transfer then records a flow for it — a sanitised name does revert. -/
theorem claim_C5_counterexample :
    get_status (tvStmt (SynStmt.localInit (some "_g")
        (SynExpr.macroE ["require"] "amount > 0")) seedC5).context "amount" =
      TaintStatus.sanitized ∧
    get_status (tvStmt (SynStmt.localInit (some "amount")
        (SynExpr.pathE ["other"]))
      (tvStmt (SynStmt.localInit (some "_g")
        (SynExpr.macroE ["require"] "amount > 0")) seedC5)).context "amount" =
      TaintStatus.tainted ∧
    (analyze_function (TaintTracker.new "") fnC5).flows.map TaintedFlow.var =
      ["amount"] :=
  ⟨by decide, by decide, by decide⟩

/-- C5 amended: a sanitising assertion macro visit turns every `Tainted`
name token of its arguments `Sanitized`; the status is never un-done by
branch machinery (an already-`Sanitized` name is never pushed onto an
`if`'s restore list, and a further assertion keeps it `Sanitized`) — but a
later `let` re-binding of the name to a tainted initialiser overwrites it
back to `Tainted` (latest-wins assignment), as the counterexample shows. -/
theorem claim_C5_macro_sanitization (segs : List String) (toks : String)
    (st : TaintSt) (v w : String) (vars : List String)
    (h1 : (segs.getLast?).getD "" = "require" ∨
          (segs.getLast?).getD "" = "assert" ∨
          (segs.getLast?).getD "" = "require_eq")
    (h2 : v ∈ extract_vars_from_str toks)
    (h3 : get_status st.context v = TaintStatus.tainted)
    (h4 : get_status st.context w = TaintStatus.sanitized) :
    get_status (taintMacroVisit segs toks st).context v =
      TaintStatus.sanitized ∧
    get_status (taintMacroVisit segs toks st).context w =
      TaintStatus.sanitized ∧
    w ∉ (ifSanitize vars st).2 := by
  unfold taintMacroVisit
  rw [if_pos h1]
  exact ⟨sanitizeTokens_sets _ _ v h2 h3,
         sanitizeTokens_sanitized_stays _ _ w h4,
         (ifSanitize_sanitized_invariant vars st w h4).2⟩

/-- Witness for the amended C5 at `require!(amount > 0)`. -/
theorem claim_C5_witness :
    get_status (taintMacroVisit ["require"] "amount > 0"
      { context := [("amount", TaintStatus.tainted),
                    ("other", TaintStatus.sanitized)],
        flows := [], source_lines := [], current_line := 0 }).context
      "amount" = TaintStatus.sanitized :=
  (claim_C5_macro_sanitization ["require"] "amount > 0"
    { context := [("amount", TaintStatus.tainted),
                  ("other", TaintStatus.sanitized)],
      flows := [], source_lines := [], current_line := 0 }
    "amount" "other" ["other"]
    (Or.inl (by decide)) (by decide) (by decide) (by decide)).1

/-- C6 (code behaviour at the failing input): `analyze_function` seeds only
the `TaintStatus` — `amount` and `ctx` are `Tainted`, with no provenance
recorded anywhere in the tracker state — and the resulting `TaintedFlow`
is exactly `{variable, sink, line, code}` with no source field, although
the in-repo consumer (detectors/tainted_flow.rs) reads `flow.source`. -/
theorem claim_C6_no_source_recorded :
    get_status seedC6.context "amount" = TaintStatus.tainted ∧
    get_status seedC6.context "ctx" = TaintStatus.tainted ∧
    (analyze_function (TaintTracker.new srcC6) fnC6).flows =
      [{ var := "amount", sink := TaintSinkType.transfer, line := 1,
         code := "transfer(amount);" }] :=
  ⟨by decide, by decide, by decide⟩

/-! ## Lemmas: Scope Tracker -/

/-- The violation (if any) one recorded usage contributes. -/
def violFor (validated : List (String × Nat)) (u : String × Nat × Nat) :
    Option (String × Nat × String) :=
  match lookup validated u.1 with
  | some vs =>
      if vs > u.2.2 then some (u.1, u.2.1, violMsg u.1 vs u.2.2) else none
  | none => none

theorem find_scope_violations_foldl (validated : List (String × Nat)) :
    ∀ (us : List (String × Nat × Nat))
      (acc : List (String × Nat × String)),
    us.foldl
      (fun acc u =>
        match lookup validated u.1 with
        | some vs =>
            if vs > u.2.2 then acc ++ [(u.1, u.2.1, violMsg u.1 vs u.2.2)]
            else acc
        | none => acc)
      acc = acc ++ us.filterMap (violFor validated) := by
  intro us
  induction us with
  | nil => intro acc; simp
  | cons u r ih =>
    intro acc
    simp only [List.foldl_cons, List.filterMap_cons]
    cases hv : lookup validated u.1 with
    | none => simp only [violFor, hv]; exact ih acc
    | some vs =>
      by_cases hgt : vs > u.2.2
      · simp only [violFor, hv, if_pos hgt]
        rw [ih]
        simp
      · simp only [violFor, hv, if_neg hgt]
        exact ih acc

/-- `find_scope_violations` characterised: exactly the usages whose
variable has a recorded validation depth strictly above the usage depth
contribute, one violation each, in usage order. -/
theorem find_scope_violations_eq (st : ScopeSt) :
    find_scope_violations st = st.usages.filterMap (violFor st.validated_at) := by
  unfold find_scope_violations
  exact find_scope_violations_foldl st.validated_at st.usages []

/-- Option-valued minimum. -/
def omin : Option Nat → Option Nat → Option Nat
  | some x, some y => some (min x y)
  | some x, none => some x
  | none, y => y

/-- Minimum of a list of depths. -/
def minsOf : List Nat → Option Nat
  | [] => none
  | x :: r =>
      match minsOf r with
      | some y => some (min x y)
      | none => some x

theorem minsOf_cons (x : Nat) (l : List Nat) :
    minsOf (x :: l) = omin (some x) (minsOf l) := by
  cases h : minsOf l <;> simp [minsOf, omin, h]

theorem omin_assoc (a b c : Option Nat) :
    omin (omin a b) c = omin a (omin b c) := by
  cases a <;> cases b <;> cases c <;> simp [omin, Nat.min_assoc]

theorem lookup_upsertMin (m : List (String × Nat)) (k : String) (d : Nat) :
    lookup (upsertMin m k d) k = omin (lookup m k) (some d) := by
  induction m with
  | nil => simp [upsertMin, lookup, omin]
  | cons hd r ih =>
    obtain ⟨k0, v0⟩ := hd
    by_cases h : k0 = k
    · subst h
      simp [upsertMin, lookup, omin]
      split <;> omega
    · simp [upsertMin, lookup, h, ih]

theorem lookup_upsertMin_ne (m : List (String × Nat)) (k v : String) (d : Nat)
    (h : k ≠ v) : lookup (upsertMin m k d) v = lookup m v := by
  induction m with
  | nil => simp [upsertMin, lookup, h]
  | cons hd r ih =>
    obtain ⟨k0, v0⟩ := hd
    by_cases h0 : k0 = k
    · subst h0; simp [upsertMin, lookup, h]
    · simp only [upsertMin, if_neg h0, lookup]
      by_cases h1 : k0 = v <;> simp [h1, ih]

/-- A validation history replayed through `record_validation`'s map
update, starting from the empty map. -/
def applyValidations (recs : List (String × Nat)) : List (String × Nat) :=
  recs.foldl (fun m p => upsertMin m p.1 p.2) []

theorem lookup_foldl_upsertMin (v : String) :
    ∀ (recs : List (String × Nat)) (m : List (String × Nat)),
    lookup (recs.foldl (fun m p => upsertMin m p.1 p.2) m) v =
      omin (lookup m v)
        (minsOf ((recs.filter (fun p => p.1 = v)).map Prod.snd)) := by
  intro recs
  induction recs with
  | nil => intro m; cases h : lookup m v <;> simp [minsOf, omin, h]
  | cons p r ih =>
    intro m
    obtain ⟨k, d⟩ := p
    simp only [List.foldl_cons]
    rw [ih]
    by_cases h : k = v
    · subst h
      rw [lookup_upsertMin, omin_assoc]
      simp [List.filter_cons, minsOf_cons]
    · rw [lookup_upsertMin_ne _ _ _ _ h]
      simp [List.filter_cons, h]

/-- `validated_at` after a history of validations is the pointwise
minimum recorded depth. -/
theorem lookup_applyValidations (recs : List (String × Nat)) (v : String) :
    lookup (applyValidations recs) v =
      minsOf ((recs.filter (fun p => p.1 = v)).map Prod.snd) := by
  unfold applyValidations
  rw [lookup_foldl_upsertMin]
  cases h : minsOf ((recs.filter (fun p => p.1 = v)).map Prod.snd) <;>
    simp [lookup, omin]

/-- The spec's scope snippet:
`fn test() { if condition { require!(amount > 0); } token::transfer(ctx, amount); }`. -/
def scopeFn : SynItemFn :=
  { name := "test", args := [],
    body := bl2
      (SynStmt.exprStmt (SynExpr.ifThen (SynExpr.pathE ["condition"])
        (bl1 (SynStmt.macroStmt ["require"] "amount > 0"))))
      (SynStmt.exprStmt (SynExpr.call (SynExpr.pathE ["token", "transfer"])
        (el2 (SynExpr.pathE ["ctx"]) (SynExpr.pathE ["amount"])))) }

/-- The Scope Tracker's state after analysing `scopeFn`. -/
def scopeRunSt : ScopeSt :=
  ScopeTracker.analyze ScopeTracker.new
    (SynItemList.cons (SynItem.fnI scopeFn) SynItemList.nil)

/-! ## Claim theorems: Scope Tracker -/

/-- C2: `find_scope_violations` is exactly the per-usage filter — a usage
`(v, line, usageDepth)` contributes one violation iff `v` has a recorded
validation depth strictly greater than `usageDepth`; a variable with no
recorded validation is never flagged; equal validation and usage depth
contributes nothing; and the recorded validation depth is the minimum
current depth over all `record_validation` calls for the name.  On the
spec's snippet the run yields exactly one violation (validated depth 1,
used depth 0). -/
theorem claim_C2_violation_characterization (st : ScopeSt)
    (recs : List (String × Nat)) (v : String) (l : Nat) (m : String)
    (d : Nat) :
    find_scope_violations st =
      st.usages.filterMap (violFor st.validated_at) ∧
    (lookup st.validated_at v = none →
      (v, l, m) ∉ find_scope_violations st) ∧
    (lookup st.validated_at v = some d →
      violFor st.validated_at (v, l, d) = none) ∧
    record_validation st v =
      { st with validated_at := upsertMin st.validated_at v st.current_depth } ∧
    lookup (applyValidations recs) v =
      minsOf ((recs.filter (fun p => p.1 = v)).map Prod.snd) ∧
    ((v, l, d) ∈ st.usages → ∀ vd, lookup st.validated_at v = some vd →
      d < vd → (v, l, violMsg v vd d) ∈ find_scope_violations st) ∧
    find_scope_violations scopeRunSt = [("amount", 0, violMsg "amount" 1 0)] := by
  refine ⟨find_scope_violations_eq st, ?_, ?_, rfl,
    lookup_applyValidations recs v, ?_, by decide⟩
  · intro hnone hmem
    rw [find_scope_violations_eq] at hmem
    obtain ⟨u, _, heq⟩ := List.mem_filterMap.mp hmem
    unfold violFor at heq
    cases hl : lookup st.validated_at u.1 with
    | none => simp [hl] at heq
    | some vs =>
      simp only [hl] at heq
      by_cases hgt : vs > u.2.2
      · simp only [if_pos hgt, Option.some.injEq, Prod.mk.injEq] at heq
        rw [heq.1] at hl
        rw [hl] at hnone
        exact Option.noConfusion hnone
      · simp [if_neg hgt] at heq
  · intro hsome
    simp [violFor, hsome]
  · intro hmem vd hvd hlt
    rw [find_scope_violations_eq]
    exact List.mem_filterMap.mpr
      ⟨(v, l, d), hmem, by simp [violFor, hvd, hlt]⟩

/-- Witness for C2: a variable with no recorded validation (`zzz`) is not
flagged on the concrete run. -/
theorem claim_C2_witness :
    ("zzz", 0, "m") ∉ find_scope_violations scopeRunSt :=
  (claim_C2_violation_characterization scopeRunSt [] "zzz" 0 "m" 0).2.1
    (by decide)

/-! ## Lemmas: depth balance of the scope visitor -/

theorem foldl_depth {α : Type} (f : ScopeSt → α → ScopeSt)
    (h : ∀ (s : ScopeSt) (a : α), (f s a).current_depth = s.current_depth) :
    ∀ (l : List α) (s : ScopeSt),
    (l.foldl f s).current_depth = s.current_depth
  | [], _ => rfl
  | a :: r, s => by rw [List.foldl_cons, foldl_depth f h r, h]

theorem record_usage_depth (st : ScopeSt) (v : String) (l : Nat) :
    (record_usage st v l).current_depth = st.current_depth := rfl

theorem record_validation_depth (st : ScopeSt) (v : String) :
    (record_validation st v).current_depth = st.current_depth := rfl

theorem recordUsagesFromStr_depth (s : String) (st : ScopeSt) :
    (recordUsagesFromStr s st).current_depth = st.current_depth :=
  foldl_depth _ (fun s' v => record_usage_depth s' v 0) _ st

theorem cfgMacroVisit_depth (segs : List String) (toks : String)
    (st : ScopeSt) :
    (cfgMacroVisit segs toks st).current_depth = st.current_depth := by
  unfold cfgMacroVisit
  dsimp only
  split
  · exact foldl_depth _ (fun s v => record_validation_depth s v) _ st
  · rfl

theorem cfgRecordArgs_depth : ∀ (l : SynExprList) (st : ScopeSt),
    (cfgRecordArgs l st).current_depth = st.current_depth
  | SynExprList.nil, _ => rfl
  | SynExprList.cons a r, st => by
      rw [cfgRecordArgs, cfgRecordArgs_depth r, recordUsagesFromStr_depth]

mutual
theorem cfgExpr_depth : ∀ (e : SynExpr) (st : ScopeSt),
    (cfgExpr e st).current_depth = st.current_depth
  | SynExpr.pathE _, _ => rfl
  | SynExpr.litInt _, _ => rfl
  | SynExpr.litOther _, _ => rfl
  | SynExpr.binary _ l r, st => by
      simp only [cfgExpr]
      rw [cfgExpr_depth r, cfgExpr_depth l]
  | SynExpr.call fn args, st => by
      simp only [cfgExpr]
      rw [cfgExprList_depth args, cfgExpr_depth fn]
      split
      · exact cfgRecordArgs_depth args st
      · rfl
  | SynExpr.methodCall recv m args, st => by
      simp only [cfgExpr]
      rw [cfgExprList_depth args, cfgExpr_depth recv]
      split
      · exact recordUsagesFromStr_depth _ st
      · rfl
  | SynExpr.paren e, st => by simp only [cfgExpr]; exact cfgExpr_depth e st
  | SynExpr.unary _ e, st => by simp only [cfgExpr]; exact cfgExpr_depth e st
  | SynExpr.cast e _, st => by simp only [cfgExpr]; exact cfgExpr_depth e st
  | SynExpr.fieldE b _, st => by simp only [cfgExpr]; exact cfgExpr_depth b st
  | SynExpr.macroE segs toks, st => by
      simp only [cfgExpr]; exact cfgMacroVisit_depth segs toks st
  | SynExpr.ifThen c t, st => by
      simp only [cfgExpr, depthDec, depthInc]
      rw [cfgBlock_depth t]
      simp [cfgExpr_depth c]
  | SynExpr.ifThenElse c t e, st => by
      simp only [cfgExpr, depthDec, depthInc]
      rw [cfgExpr_depth e]
      simp only [Nat.add_sub_cancel]
      rw [cfgBlock_depth t]
      simp [cfgExpr_depth c]
  | SynExpr.blockE b, st => by
      simp only [cfgExpr, depthDec, depthInc]
      rw [cfgBlock_depth b]
      simp
  | SynExpr.loopE b, st => by
      simp only [cfgExpr, depthDec, depthInc]
      rw [cfgBlock_depth b]
      simp
  | SynExpr.forE _ it b, st => by
      simp only [cfgExpr, depthDec, depthInc]
      rw [cfgBlock_depth b]
      simp [cfgExpr_depth it]
  | SynExpr.whileE c b, st => by
      simp only [cfgExpr, depthDec, depthInc]
      rw [cfgBlock_depth b]
      simp [cfgExpr_depth c]
  | SynExpr.otherE _, _ => rfl

theorem cfgExprList_depth : ∀ (l : SynExprList) (st : ScopeSt),
    (cfgExprList l st).current_depth = st.current_depth
  | SynExprList.nil, _ => rfl
  | SynExprList.cons e r, st => by
      simp only [cfgExprList]
      rw [cfgExprList_depth r, cfgExpr_depth e]

theorem cfgStmt_depth : ∀ (s : SynStmt) (st : ScopeSt),
    (cfgStmt s st).current_depth = st.current_depth
  | SynStmt.localInit _ init, st => by
      simp only [cfgStmt]; exact cfgExpr_depth init st
  | SynStmt.localBare _, _ => rfl
  | SynStmt.exprStmt e, st => by
      simp only [cfgStmt]; exact cfgExpr_depth e st
  | SynStmt.macroStmt segs toks, st => by
      simp only [cfgStmt]; exact cfgMacroVisit_depth segs toks st
  | SynStmt.itemStmt, _ => rfl

theorem cfgBlock_depth : ∀ (b : SynBlock) (st : ScopeSt),
    (cfgBlock b st).current_depth = st.current_depth
  | SynBlock.nil, _ => rfl
  | SynBlock.cons s r, st => by
      simp only [cfgBlock]
      rw [cfgBlock_depth r, cfgStmt_depth s]
end

mutual
theorem cfgItem_depth : ∀ (i : SynItem) (st : ScopeSt),
    (cfgItem i st).current_depth = st.current_depth
  | SynItem.structI _, _ => rfl
  | SynItem.constI c, st => by
      simp only [cfgItem]; exact cfgExpr_depth c.expr st
  | SynItem.fnI f, st => by
      simp only [cfgItem]; exact cfgBlock_depth f.body st
  | SynItem.modI (some items), st => by
      simp only [cfgItem]; exact cfgItems_depth items st
  | SynItem.modI none, _ => rfl
  | SynItem.otherI, _ => rfl

theorem cfgItems_depth : ∀ (l : SynItemList) (st : ScopeSt),
    (cfgItems l st).current_depth = st.current_depth
  | SynItemList.nil, _ => rfl
  | SynItemList.cons i r, st => by
      simp only [cfgItems]
      rw [cfgItems_depth r, cfgItem_depth i]
end

/-- C10: every visit of a complete expression, statement, argument list or
block leaves `current_depth` exactly as it found it, `analyze` over a file
(hence over any function body) returns with the starting depth, and the
value entering each paired decrement is positive (the body is visited at
`depth + 1` and preserves it), so the `usize` decrement never
underflows. -/
theorem claim_C10_depth_balanced (e : SynExpr) (s : SynStmt) (b : SynBlock)
    (l : SynExprList) (file : SynItemList) (st : ScopeSt) :
    (cfgExpr e st).current_depth = st.current_depth ∧
    (cfgStmt s st).current_depth = st.current_depth ∧
    (cfgBlock b st).current_depth = st.current_depth ∧
    (cfgExprList l st).current_depth = st.current_depth ∧
    (ScopeTracker.analyze st file).current_depth = st.current_depth ∧
    0 < (cfgBlock b (depthInc st)).current_depth := by
  refine ⟨cfgExpr_depth e st, cfgStmt_depth s st, cfgBlock_depth b st,
    cfgExprList_depth l st, cfgItems_depth file st, ?_⟩
  rw [cfgBlock_depth b (depthInc st)]
  simp [depthInc]

/-! ## Claim theorems: Program Index -/

/-- `pub const MAX: u64 = 1000;`. -/
def constMax1000 : ItemConstS :=
  { vis_pub := true, name := "MAX", tyTokens := "u64",
    expr := SynExpr.litInt 1000 }

/-- `pub const MAX: u64 = compute();`. -/
def constMaxCompute : ItemConstS :=
  { vis_pub := true, name := "MAX", tyTokens := "u64",
    expr := SynExpr.call (SynExpr.pathE ["compute"]) SynExprList.nil }

/-- Context after indexing the literal constant. -/
def ctx1000 : ProgramContext :=
  index_file ProgramContext.new "t.rs" "const MAX"
    (some (SynItemList.cons (SynItem.constI constMax1000) SynItemList.nil))

/-- Context after indexing the call-initialised constant. -/
def ctxComp : ProgramContext :=
  index_file ProgramContext.new "t.rs" "const MAX"
    (some (SynItemList.cons (SynItem.constI constMaxCompute) SynItemList.nil))

/-- An initialiser that is an integer literal (representable in `i128`)
wrapped in any nest of parentheses, casts and unary negations, together
with the integer it denotes. -/
inductive WrappedLit : SynExpr → Int → Prop where
  | lit (v : Nat) (h : (v : Int) ≤ i128Max) :
      WrappedLit (SynExpr.litInt v) (v : Int)
  | par {e : SynExpr} {n : Int} :
      WrappedLit e n → WrappedLit (SynExpr.paren e) n
  | cst {e : SynExpr} {n : Int} (ty : String) :
      WrappedLit e n → WrappedLit (SynExpr.cast e ty) n
  | neg {e : SynExpr} {n : Int} :
      WrappedLit e n → WrappedLit (SynExpr.unary UnOp.neg e) (-n)

set_option maxRecDepth 8000 in
/-- C7: constant resolution is best-effort folding and total: a wrapped
integer-literal initialiser resolves to its integer
(`const MAX: u64 = 1000;` gives `resolve_constant "MAX" = some 1000`);
any other initialiser — e.g. the call `compute()` — is still recorded,
with `value = none`, and `resolve_constant` returns `none` (in the
embedding every one of these operations is a total function: no panic). -/
theorem claim_C7_constant_resolution (e : SynExpr) (n : Int)
    (h : WrappedLit e n) :
    extract_numeric_value e = some n ∧
    resolve_constant ctx1000 "MAX" = some 1000 ∧
    lookup ctxComp.constants "MAX" =
      some { name := "MAX", value := none,
             value_str := "pub const MAX : u64 = compute () ; . expr" } ∧
    resolve_constant ctxComp "MAX" = none := by
  refine ⟨?_, by decide, by decide, by decide⟩
  induction h with
  | lit v hv => simp [extract_numeric_value, hv]
  | par _ ih => simp [extract_numeric_value, ih]
  | cst ty _ ih => simp [extract_numeric_value, ih]
  | neg _ ih => simp [extract_numeric_value, ih]

set_option maxRecDepth 8000 in
/-- Witness for C7 at `-( 5 as u64 )` (a negated, cast, parenthesised
literal). -/
theorem claim_C7_witness :
    extract_numeric_value
      (SynExpr.unary UnOp.neg
        (SynExpr.paren (SynExpr.cast (SynExpr.litInt 5) "u64"))) =
      some (-5) :=
  (claim_C7_constant_resolution _ _
    (WrappedLit.neg (WrappedLit.par (WrappedLit.cst "u64"
      (WrappedLit.lit 5 (by decide)))))).1

/-! ## Lemmas: Program Index struct maps -/

theorem index_struct_structs (ctx : ProgramContext) (p : String)
    (s : ItemStructS) :
    (index_struct ctx p s).structs =
      upsert ctx.structs s.name (structInfoOf p s) := by
  unfold index_struct; dsimp only; split <;> rfl

theorem index_struct_accounts (ctx : ProgramContext) (p : String)
    (s : ItemStructS) :
    (index_struct ctx p s).accounts =
      if (structInfoOf p s).is_account then
        upsert ctx.accounts s.name (structInfoOf p s)
      else ctx.accounts := by
  unfold index_struct; dsimp only; split <;> simp_all

theorem lookup_index_struct_structs (ctx : ProgramContext) (p : String)
    (s : ItemStructS) (n : String) :
    lookup (index_struct ctx p s).structs n =
      if s.name = n then some (structInfoOf p s)
      else lookup ctx.structs n := by
  rw [index_struct_structs]
  by_cases h : s.name = n
  · subst h; simp [lookup_upsert_self]
  · simp [h, lookup_upsert_ne _ _ _ _ h]

theorem lookup_index_struct_accounts (ctx : ProgramContext) (p : String)
    (s : ItemStructS) (n : String) :
    lookup (index_struct ctx p s).accounts n =
      if (structInfoOf p s).is_account ∧ s.name = n then
        some (structInfoOf p s)
      else lookup ctx.accounts n := by
  rw [index_struct_accounts]
  by_cases ha : (structInfoOf p s).is_account
  · by_cases h : s.name = n
    · subst h; simp [ha, lookup_upsert_self]
    · simp [ha, h, lookup_upsert_ne _ _ _ _ h]
  · simp [ha]

theorem index_constant_structs (ctx : ProgramContext) (c : ItemConstS) :
    (index_constant ctx c).structs = ctx.structs := rfl

theorem index_constant_accounts (ctx : ProgramContext) (c : ItemConstS) :
    (index_constant ctx c).accounts = ctx.accounts := rfl

theorem index_function_structs (ctx : ProgramContext) (p : String)
    (f : SynItemFn) : (index_function ctx p f).structs = ctx.structs := by
  unfold index_function; dsimp only; split <;> rfl

theorem index_function_accounts (ctx : ProgramContext) (p : String)
    (f : SynItemFn) : (index_function ctx p f).accounts = ctx.accounts := by
  unfold index_function; dsimp only; split <;> rfl

/-- Does a module's inline item list define a struct named `n`? -/
def structNamesMod : SynItemList → String → Bool
  | SynItemList.nil, _ => false
  | SynItemList.cons i r, n =>
      (match i with
        | SynItem.structI s => s.name == n
        | _ => false) || structNamesMod r n

/-- Does a file define a struct named `n` (top level or one-level inline
module — the places `extract_from_file` indexes structs from)? -/
def definesStructIn : SynItemList → String → Bool
  | SynItemList.nil, _ => false
  | SynItemList.cons i r, n =>
      (match i with
        | SynItem.structI s => s.name == n
        | SynItem.modI (some items) => structNamesMod items n
        | _ => false) || definesStructIn r n

theorem indexModStructs_preserve (n : String) :
    ∀ (L : SynItemList) (ctx : ProgramContext) (p : String),
    structNamesMod L n = false →
    lookup (indexModStructs ctx p L).structs n = lookup ctx.structs n ∧
    lookup (indexModStructs ctx p L).accounts n = lookup ctx.accounts n
  | SynItemList.nil, ctx, p, _ => ⟨rfl, rfl⟩
  | SynItemList.cons i r, ctx, p, h => by
      cases i with
      | structI s =>
        simp only [structNamesMod, Bool.or_eq_false_iff] at h
        have hs : s.name ≠ n := by simpa using h.1
        have ih := indexModStructs_preserve n r (index_struct ctx p s) p h.2
        rw [indexModStructs]
        refine ⟨?_, ?_⟩
        · rw [ih.1, lookup_index_struct_structs, if_neg hs]
        · rw [ih.2, lookup_index_struct_accounts]
          simp [hs]
      | constI c =>
        simp only [structNamesMod, Bool.false_or] at h
        exact indexModStructs_preserve n r ctx p h
      | fnI f =>
        simp only [structNamesMod, Bool.false_or] at h
        exact indexModStructs_preserve n r ctx p h
      | modI content =>
        simp only [structNamesMod, Bool.false_or] at h
        cases content <;> exact indexModStructs_preserve n r ctx p h
      | otherI =>
        simp only [structNamesMod, Bool.false_or] at h
        exact indexModStructs_preserve n r ctx p h

theorem extract_preserve (n : String) :
    ∀ (L : SynItemList) (ctx : ProgramContext) (p : String),
    definesStructIn L n = false →
    lookup (extract_from_file ctx p L).structs n = lookup ctx.structs n ∧
    lookup (extract_from_file ctx p L).accounts n = lookup ctx.accounts n
  | SynItemList.nil, ctx, p, _ => ⟨rfl, rfl⟩
  | SynItemList.cons i r, ctx, p, h => by
      cases i with
      | structI s =>
        simp only [definesStructIn, Bool.or_eq_false_iff] at h
        have hs : s.name ≠ n := by simpa using h.1
        have ih := extract_preserve n r (index_struct ctx p s) p h.2
        rw [extract_from_file]
        refine ⟨?_, ?_⟩
        · rw [ih.1, lookup_index_struct_structs, if_neg hs]
        · rw [ih.2, lookup_index_struct_accounts]
          simp [hs]
      | constI c =>
        simp only [definesStructIn, Bool.false_or] at h
        have ih := extract_preserve n r (index_constant ctx c) p h
        rw [extract_from_file]
        rw [index_constant_structs, index_constant_accounts] at ih
        exact ih
      | fnI f =>
        simp only [definesStructIn, Bool.false_or] at h
        have ih := extract_preserve n r (index_function ctx p f) p h
        rw [extract_from_file]
        rw [index_function_structs, index_function_accounts] at ih
        exact ih
      | modI content =>
        cases content with
        | none =>
          simp only [definesStructIn, Bool.false_or] at h
          exact extract_preserve n r ctx p h
        | some items =>
          simp only [definesStructIn, Bool.or_eq_false_iff] at h
          have hm := indexModStructs_preserve n items ctx p h.1
          have ih := extract_preserve n r (indexModStructs ctx p items) p h.2
          rw [extract_from_file]
          rw [hm.1] at ih
          rw [hm.2] at ih
          exact ih
      | otherI =>
        simp only [definesStructIn, Bool.false_or] at h
        exact extract_preserve n r ctx p h

theorem indexModStructs_congr (n : String) :
    ∀ (L : SynItemList) (ctx ctx' : ProgramContext) (p : String),
    lookup ctx.structs n = lookup ctx'.structs n →
    lookup ctx.accounts n = lookup ctx'.accounts n →
    lookup (indexModStructs ctx p L).structs n =
      lookup (indexModStructs ctx' p L).structs n ∧
    lookup (indexModStructs ctx p L).accounts n =
      lookup (indexModStructs ctx' p L).accounts n
  | SynItemList.nil, ctx, ctx', p, hs, ha => ⟨hs, ha⟩
  | SynItemList.cons i r, ctx, ctx', p, hs, ha => by
      cases i with
      | structI s =>
        apply indexModStructs_congr n r
        · rw [lookup_index_struct_structs, lookup_index_struct_structs]
          split <;> simp [hs]
        · rw [lookup_index_struct_accounts, lookup_index_struct_accounts]
          split <;> simp [ha]
      | constI c => exact indexModStructs_congr n r ctx ctx' p hs ha
      | fnI f => exact indexModStructs_congr n r ctx ctx' p hs ha
      | modI content =>
        cases content <;> exact indexModStructs_congr n r ctx ctx' p hs ha
      | otherI => exact indexModStructs_congr n r ctx ctx' p hs ha

theorem extract_congr (n : String) :
    ∀ (L : SynItemList) (ctx ctx' : ProgramContext) (p : String),
    lookup ctx.structs n = lookup ctx'.structs n →
    lookup ctx.accounts n = lookup ctx'.accounts n →
    lookup (extract_from_file ctx p L).structs n =
      lookup (extract_from_file ctx' p L).structs n ∧
    lookup (extract_from_file ctx p L).accounts n =
      lookup (extract_from_file ctx' p L).accounts n
  | SynItemList.nil, ctx, ctx', p, hs, ha => ⟨hs, ha⟩
  | SynItemList.cons i r, ctx, ctx', p, hs, ha => by
      cases i with
      | structI s =>
        apply extract_congr n r
        · rw [lookup_index_struct_structs, lookup_index_struct_structs]
          split <;> simp [hs]
        · rw [lookup_index_struct_accounts, lookup_index_struct_accounts]
          split <;> simp [ha]
      | constI c =>
        apply extract_congr n r
        · rw [index_constant_structs, index_constant_structs]; exact hs
        · rw [index_constant_accounts, index_constant_accounts]; exact ha
      | fnI f =>
        apply extract_congr n r
        · rw [index_function_structs, index_function_structs]; exact hs
        · rw [index_function_accounts, index_function_accounts]; exact ha
      | modI content =>
        cases content with
        | none => exact extract_congr n r ctx ctx' p hs ha
        | some items =>
          have hm := indexModStructs_congr n items ctx ctx' p hs ha
          exact extract_congr n r _ _ p hm.1 hm.2
      | otherI => exact extract_congr n r ctx ctx' p hs ha

/-- `#[account] pub struct S { pub owner: Pubkey }` (file a.rs). -/
def structSA : ItemStructS :=
  { name := "S", attrs := ["# [account]"],
    namedFields := some [{ vis_pub := true, name := some "owner",
                           tyTokens := "Pubkey" }] }

/-- `pub struct S {}` — same name, not an account (file b.rs). -/
def structSB : ItemStructS :=
  { name := "S", attrs := [], namedFields := some [] }

/-- Indexing a.rs (account `S`) then b.rs (plain `S`). -/
def ctxAB : ProgramContext :=
  index_file
    (index_file ProgramContext.new "a.rs" "srcA"
      (some (SynItemList.cons (SynItem.structI structSA) SynItemList.nil)))
    "b.rs" "srcB"
    (some (SynItemList.cons (SynItem.structI structSB) SynItemList.nil))

/-- C8 counterexample: when the later-indexed definition of a colliding
struct name is not an account, the accounts map is *not* overwritten — the
general struct map holds the later (b.rs) definition while the accounts
map still holds the earlier (a.rs) one, and the two `StructInfo`s
differ. -/
theorem claim_C8_counterexample :
    lookup ctxAB.structs "S" = some (structInfoOf "b.rs" structSB) ∧
    lookup ctxAB.accounts "S" = some (structInfoOf "a.rs" structSA) ∧
    structInfoOf "a.rs" structSA ≠ structInfoOf "b.rs" structSB ∧
    (structInfoOf "b.rs" structSB).is_account = false :=
  ⟨by decide, by decide, by decide, by decide⟩

/-- `#[account] pub struct T { pub x: u64 }` (file a.rs). -/
def structTA : ItemStructS :=
  { name := "T", attrs := ["# [account]"],
    namedFields := some [{ vis_pub := true, name := some "x",
                           tyTokens := "u64" }] }

/-- `#[account] pub struct T { pub y: u64 }` (file b.rs). -/
def structTB : ItemStructS :=
  { name := "T", attrs := ["# [account]"],
    namedFields := some [{ vis_pub := true, name := some "y",
                           tyTokens := "u64" }] }

/-- Indexing two account-classified definitions of `T`, a.rs then b.rs. -/
def ctxTT : ProgramContext :=
  index_file
    (index_file ProgramContext.new "a.rs" "srcTA"
      (some (SynItemList.cons (SynItem.structI structTA) SynItemList.nil)))
    "b.rs" "srcTB"
    (some (SynItemList.cons (SynItem.structI structTB) SynItemList.nil))

/-- C8 amended: struct indexing is order-independent for a name not
defined by one of the two files (both the general and the accounts map
resolve it identically under either order), and on collision the later
file wins in the general struct map always, and in the accounts map
exactly when the later definition is itself account-classified (the
counterexample shows a later non-account definition leaves the earlier
accounts entry in place). -/
theorem claim_C8_index_order (A B : SynItemList) (pA pB sa sb n : String)
    (hB : definesStructIn B n = false) :
    lookup (indexFiles ProgramContext.new
        [(pA, sa, some A), (pB, sb, some B)]).structs n =
      lookup (indexFiles ProgramContext.new
        [(pB, sb, some B), (pA, sa, some A)]).structs n ∧
    lookup (indexFiles ProgramContext.new
        [(pA, sa, some A), (pB, sb, some B)]).accounts n =
      lookup (indexFiles ProgramContext.new
        [(pB, sb, some B), (pA, sa, some A)]).accounts n ∧
    lookup ctxTT.structs "T" = some (structInfoOf "b.rs" structTB) ∧
    lookup ctxTT.accounts "T" = some (structInfoOf "b.rs" structTB) := by
  -- the B pass leaves the entry for n untouched
  have hpass : ∀ (c : ProgramContext) (sy : String),
      lookup (index_file c pB sy (some B)).structs n = lookup c.structs n ∧
      lookup (index_file c pB sy (some B)).accounts n = lookup c.accounts n := by
    intro c sy
    exact extract_preserve n B
      { c with file_cache := upsert c.file_cache pB sy } pB hB
  -- the entry for n after an A pass depends only on the entry before it
  have hApass : ∀ (c c' : ProgramContext) (sx sx' : String),
      lookup c.structs n = lookup c'.structs n →
      lookup c.accounts n = lookup c'.accounts n →
      lookup (index_file c pA sx (some A)).structs n =
        lookup (index_file c' pA sx' (some A)).structs n ∧
      lookup (index_file c pA sx (some A)).accounts n =
        lookup (index_file c' pA sx' (some A)).accounts n := by
    intro c c' sx sx' hs ha
    exact extract_congr n A
      { c with file_cache := upsert c.file_cache pA sx }
      { c' with file_cache := upsert c'.file_cache pA sx' } pA hs ha
  have hfirst := hpass (index_file ProgramContext.new pA sa (some A)) sb
  have hBnone := hpass ProgramContext.new sb
  have hcongr := hApass (index_file ProgramContext.new pB sb (some B))
    ProgramContext.new sa sa hBnone.1 hBnone.2
  refine ⟨?_, ?_, by decide, by decide⟩
  · show lookup (index_file (index_file ProgramContext.new pA sa (some A))
        pB sb (some B)).structs n = _
    rw [hfirst.1]
    exact hcongr.1.symm
  · show lookup (index_file (index_file ProgramContext.new pA sa (some A))
        pB sb (some B)).accounts n = _
    rw [hfirst.2]
    exact hcongr.2.symm

/-- Witness for the amended C8 at the concrete pair of files from the
counterexample, on a name (`U`) that b.rs does not define. -/
theorem claim_C8_witness :
    lookup (indexFiles ProgramContext.new
        [("a.rs", "srcA",
          some (SynItemList.cons (SynItem.structI structSA) SynItemList.nil)),
         ("b.rs", "srcB",
          some (SynItemList.cons (SynItem.structI structSB) SynItemList.nil))]).structs
      "U" =
    lookup (indexFiles ProgramContext.new
        [("b.rs", "srcB",
          some (SynItemList.cons (SynItem.structI structSB) SynItemList.nil)),
         ("a.rs", "srcA",
          some (SynItemList.cons (SynItem.structI structSA) SynItemList.nil))]).structs
      "U" :=
  (claim_C8_index_order
    (SynItemList.cons (SynItem.structI structSA) SynItemList.nil)
    (SynItemList.cons (SynItem.structI structSB) SynItemList.nil)
    "a.rs" "b.rs" "srcA" "srcB" "U" (by decide)).1

/-! ## Lemmas: totality of indexing / parse-failure isolation -/

/-- Equality of the four knowledge components (everything the detectors
query — the raw text cache aside). -/
def knowledgeEq (c1 c2 : ProgramContext) : Prop :=
  c1.structs = c2.structs ∧ c1.accounts = c2.accounts ∧
  c1.constants = c2.constants ∧ c1.instructions = c2.instructions

theorem knowledgeEq_refl (c : ProgramContext) : knowledgeEq c c :=
  ⟨rfl, rfl, rfl, rfl⟩

theorem knowledgeEq_trans {a b c : ProgramContext}
    (h1 : knowledgeEq a b) (h2 : knowledgeEq b c) : knowledgeEq a c :=
  ⟨h1.1.trans h2.1, h1.2.1.trans h2.2.1, h1.2.2.1.trans h2.2.2.1,
   h1.2.2.2.trans h2.2.2.2⟩

theorem index_struct_cache (c : ProgramContext) (x : List (String × String))
    (p : String) (s : ItemStructS) :
    index_struct { c with file_cache := x } p s =
      { index_struct c p s with file_cache := x } := by
  unfold index_struct; dsimp only; split <;> rfl

theorem index_constant_cache (c : ProgramContext)
    (x : List (String × String)) (cst : ItemConstS) :
    index_constant { c with file_cache := x } cst =
      { index_constant c cst with file_cache := x } := rfl

theorem index_function_cache (c : ProgramContext)
    (x : List (String × String)) (p : String) (f : SynItemFn) :
    index_function { c with file_cache := x } p f =
      { index_function c p f with file_cache := x } := by
  unfold index_function; dsimp only; split <;> rfl

theorem indexModStructs_cache :
    ∀ (L : SynItemList) (c : ProgramContext) (p : String)
      (x : List (String × String)),
    indexModStructs { c with file_cache := x } p L =
      { indexModStructs c p L with file_cache := x }
  | SynItemList.nil, _, _, _ => rfl
  | SynItemList.cons i r, c, p, x => by
      cases i with
      | structI s =>
        rw [indexModStructs, indexModStructs]
        dsimp only
        rw [index_struct_cache, indexModStructs_cache r]
      | constI cst => exact indexModStructs_cache r c p x
      | fnI f => exact indexModStructs_cache r c p x
      | modI content => cases content <;> exact indexModStructs_cache r c p x
      | otherI => exact indexModStructs_cache r c p x

theorem extract_cache :
    ∀ (L : SynItemList) (c : ProgramContext) (p : String)
      (x : List (String × String)),
    extract_from_file { c with file_cache := x } p L =
      { extract_from_file c p L with file_cache := x }
  | SynItemList.nil, _, _, _ => rfl
  | SynItemList.cons i r, c, p, x => by
      cases i with
      | structI s =>
        rw [extract_from_file, extract_from_file]
        dsimp only
        rw [index_struct_cache, extract_cache r]
      | constI cst =>
        rw [extract_from_file, extract_from_file]
        dsimp only
        rw [index_constant_cache, extract_cache r]
      | fnI f =>
        rw [extract_from_file, extract_from_file]
        dsimp only
        rw [index_function_cache, extract_cache r]
      | modI content =>
        cases content with
        | none => exact extract_cache r c p x
        | some items =>
          rw [extract_from_file, extract_from_file]
          dsimp only
          rw [indexModStructs_cache, extract_cache r]
      | otherI => exact extract_cache r c p x

theorem index_file_cache (c : ProgramContext) (p s : String)
    (parsed : Option SynItemList) (x : List (String × String)) :
    index_file { c with file_cache := x } p s parsed =
      { index_file c p s parsed with file_cache := upsert x p s } := by
  cases parsed with
  | none => rfl
  | some L =>
    show extract_from_file { c with file_cache := upsert x p s } p L =
      { extract_from_file { c with file_cache := upsert c.file_cache p s }
          p L with file_cache := upsert x p s }
    rw [extract_cache L c p (upsert x p s),
        extract_cache L c p (upsert c.file_cache p s)]

theorem indexFiles_knowledge_cache :
    ∀ (files : List (String × String × Option SynItemList))
      (c : ProgramContext) (x : List (String × String)),
    knowledgeEq (indexFiles { c with file_cache := x } files)
      (indexFiles c files)
  | [], _, _ => ⟨rfl, rfl, rfl, rfl⟩
  | (p, s, parsed) :: r, c, x => by
      rw [indexFiles, indexFiles, index_file_cache]
      exact indexFiles_knowledge_cache r (index_file c p s parsed) _

/-- C9: `index_file` on a parse failure only caches the raw text — the
struct, accounts, constant and instruction components are exactly those of
the incoming context — and a whole indexing pass over any file sequence
produces the same four knowledge components as the pass with all
parse-failed files removed: a malformed file is skipped silently and
subsequent files are indexed unaffected.  (Every operation involved is a
total Lean function: there is no failure path to raise.) -/
theorem claim_C9_parse_failure_skips (ctx : ProgramContext) (p s : String)
    (files : List (String × String × Option SynItemList)) :
    index_file ctx p s none =
      { ctx with file_cache := upsert ctx.file_cache p s } ∧
    knowledgeEq (indexFiles ctx files)
      (indexFiles ctx (files.filter (fun f => f.2.2.isSome))) := by
  refine ⟨rfl, ?_⟩
  induction files generalizing ctx with
  | nil => exact knowledgeEq_refl _
  | cons f r ih =>
    obtain ⟨p', s', parsed⟩ := f
    cases parsed with
    | none =>
      simp only [List.filter_cons, Option.isSome_none, indexFiles]
      exact knowledgeEq_trans
        (indexFiles_knowledge_cache r ctx (upsert ctx.file_cache p' s'))
        (ih ctx)
    | some L =>
      simp only [List.filter_cons, Option.isSome_some, indexFiles]
      exact ih (index_file ctx p' s' (some L))

end Sentinel
